import Mathlib

/-!
Verification development for the Madhya Pradesh High Court scraping service
(`app.py`): a shallow embedding of the outcome classifier, the CAPTCHA
resolution loop, the HTML extraction engine `parse_html_data`, the PDF
renderer `create_pdf`, and the request handler `handle_scrape_request`,
together with theorems settling the specification claims.
-/

set_option autoImplicit false

namespace MPHC

/-! ## Character and string helpers

The Python code works over `str`; we model strings through their character
lists so that every operation is structurally recursive and computable.
-/

/-- Model of the Python whitespace-stripping `str.strip()`:
drop whitespace from both ends. -/
def trimChars (s : String) : String :=
  ⟨((s.data.dropWhile Char.isWhitespace).reverse.dropWhile Char.isWhitespace).reverse⟩

/-- Check that `pat` starts the list `hay` (character-wise). -/
def leadMatch : List Char → List Char → Bool
  | [], _ => true
  | _ :: _, [] => false
  | a :: as, b :: bs => a == b && leadMatch as bs

/-- First index at which `pat` occurs inside `hay`, if any:
model of Python substring search. -/
def findSubIdx (pat : List Char) : List Char → Option Nat
  | [] => if pat.isEmpty then some 0 else none
  | c :: rest =>
    if leadMatch pat (c :: rest) then some 0
    else (findSubIdx pat rest).map (· + 1)

/-- Model of the Python `pat in hay` substring test. -/
def containsSub (hay pat : String) : Bool :=
  (findSubIdx pat.data hay.data).isSome

/-- Model of Python `str.lower()` (ASCII case folding as in the app). -/
def lowerStr (s : String) : String := ⟨s.data.map Char.toLower⟩

/-- The non-breaking-space character `\xa0` replaced by `clean_text`. -/
def nbspChar : Char := Char.ofNat 160

/-- Model of the helper `clean_text` in `parse_html_data`:
`text.replace(u'\xa0', ' ').strip()`. -/
def cleanText (s : String) : String :=
  trimChars ⟨s.data.map (fun c => if c == nbspChar then ' ' else c)⟩

/-- Model of `.lstrip(":").strip()` applied to extracted values. -/
def stripLeadColons (s : String) : String :=
  trimChars ⟨s.data.dropWhile (· == ':')⟩

/-- Join a list of strings with a separator (as `separator.join(...)` does). -/
def joinSep (sep : String) : List String → String
  | [] => ""
  | [x] => x
  | x :: y :: xs => x ++ sep ++ joinSep sep (y :: xs)

/-- Everything after the first `':'` of the character list, if a colon occurs:
model of `text.split(":", 1)[1]` guarded by `":" in text`. -/
def afterColon : List Char → Option (List Char)
  | [] => none
  | ':' :: rest => some rest
  | _ :: rest => afterColon rest

/-- Value part of a `label : value` text, stripped; `none` when no colon. -/
def colonValue (t : String) : Option String :=
  (afterColon t.data).map (fun cs => trimChars ⟨cs⟩)

/-- Skip whitespace characters (the regex fragment `\s*`). -/
def dropSpaces (cs : List Char) : List Char :=
  cs.dropWhile Char.isWhitespace

/-- Require a `':'` at the head of the list (after `\s*` in the pattern). -/
def chompColon : List Char → Option (List Char)
  | ':' :: rest => some rest
  | _ => none

/-- Model of the paired label regex used for the Filing and Registration rows:
`re.search(r"<l1>\s*:\s*(.*?)\s*<l2>\s*:\s*(.*)", text, re.IGNORECASE)`
followed by `.strip()` on both captured groups.  `l1`, `l2` are given in
lower case; the search is case-insensitive.  The model locates the first
occurrence of each label; regex backtracking across repeated occurrences of
the labels is not modelled, and the flattened text (built with separator
`" "`) is assumed newline-free, matching what `get_text(separator=" ")`
produces on these rows. -/
def pairedMatch (l1 l2 : String) (t : String) : Option (String × String) :=
  let cs := t.data
  match findSubIdx l1.data (cs.map Char.toLower) with
  | none => none
  | some i =>
    match chompColon (dropSpaces (cs.drop (i + l1.length))) with
    | none => none
    | some rest1 =>
      let r1 := dropSpaces rest1
      match findSubIdx l2.data (r1.map Char.toLower) with
      | none => none
      | some j =>
        match chompColon (dropSpaces (r1.drop (j + l2.length))) with
        | none => none
        | some rest2 =>
          some (trimChars ⟨r1.take j⟩, trimChars ⟨dropSpaces rest2⟩)

/-! ## Python dictionaries

The extractor stores results in Python `dict`s.  We model a `dict` as an
insertion-ordered association list with unique keys: assigning to an
existing key updates the value in place, otherwise the pair is appended. -/

/-- Model of `d[k] = v` on a Python `dict`. -/
def pyInsert (d : List (String × String)) (k v : String) : List (String × String) :=
  if d.any (fun p => p.1 == k) then
    d.map (fun p => if p.1 == k then (k, v) else p)
  else d ++ [(k, v)]

/-- Model of `dict(pairs)`: left-to-right insertion. -/
def pyDictOfPairs (l : List (String × String)) : List (String × String) :=
  l.foldl (fun d p => pyInsert d p.1 p.2) []

/-! ## Markup trees

`parse_html_data` consumes a BeautifulSoup tree.  We embed documents as a
tree of elements (tag, class list, style string, children) and text nodes.
The children live in a dedicated mutual inductive so all traversals are
structurally recursive and hence computable by the kernel. -/

mutual
inductive Html where
  | text : String → Html
  | elem : String → List String → String → HtmlList → Html
inductive HtmlList where
  | nil : HtmlList
  | cons : Html → HtmlList → HtmlList
end

/-- Build an `HtmlList` from a `List Html` (for writing concrete documents). -/
def hl : List Html → HtmlList
  | [] => .nil
  | x :: xs => .cons x (hl xs)

/-- Tag test for elements. -/
def isTag (t : String) : Html → Bool
  | .text _ => false
  | .elem t' _ _ _ => t' == t

/-- Model of BeautifulSoup's `class_=c` filter: `c` among the classes. -/
def hasClass (c : String) : Html → Bool
  | .text _ => false
  | .elem _ cls _ _ => cls.any (· == c)

/-- Model of the `style=lambda s: s and sub in s` filters. -/
def styleContains (sub : String) : Html → Bool
  | .text _ => false
  | .elem _ _ st _ => containsSub st sub

mutual
/-- All text fragments of a node, in document order (`.strings`). -/
def textsOf : Html → List String
  | .text s => [s]
  | .elem _ _ _ k => textsOfList k
def textsOfList : HtmlList → List String
  | .nil => []
  | .cons x xs => textsOf x ++ textsOfList xs
end

/-- Model of `get_text(separator=sep, strip=True)`: strip each fragment,
drop the empty ones, join with the separator. -/
def getTextSep (sep : String) (n : Html) : String :=
  joinSep sep (((textsOf n).map trimChars).filter (fun s => !s.isEmpty))

/-- Model of `get_text()` with no arguments: raw concatenation. -/
def rawTextOf (n : Html) : String :=
  (textsOf n).foldl (· ++ ·) ""

/-- Model of BeautifulSoup's `.string`: defined when the node is a text
node or an element with exactly one child, recursively. -/
def nodeStr : Html → Option String
  | .text s => some s
  | .elem _ _ _ (.cons c .nil) => nodeStr c
  | .elem _ _ _ _ => none

mutual
/-- First node (in document order, the node itself included) satisfying `p`,
together with its ancestor chain, nearest first: model of `soup.find(...)`
combined with `find_parent`. -/
def findFirst (p : Html → Bool) (anc : List Html) : Html → Option (Html × List Html)
  | .text s => if p (.text s) then some (.text s, anc) else none
  | .elem t c st k =>
    if p (.elem t c st k) then some (.elem t c st k, anc)
    else findFirstList p (.elem t c st k :: anc) k
def findFirstList (p : Html → Bool) (anc : List Html) : HtmlList → Option (Html × List Html)
  | .nil => none
  | .cons x xs =>
    match findFirst p anc x with
    | some r => some r
    | none => findFirstList p anc xs
end

/-- Model of `soup.find(...)` from the document root. -/
def findTop (p : Html → Bool) (doc : Html) : Option (Html × List Html) :=
  findFirst p [] doc

mutual
/-- All nodes (self included) satisfying `p`, in document order. -/
def findAllSelf (p : Html → Bool) : Html → List Html
  | .text s => if p (.text s) then [.text s] else []
  | .elem t c st k =>
    (if p (.elem t c st k) then [.elem t c st k] else []) ++ findAllList p k
def findAllList (p : Html → Bool) : HtmlList → List Html
  | .nil => []
  | .cons x xs => findAllSelf p x ++ findAllList p xs
end

/-- Model of `node.find_all(...)`: matching descendants, self excluded. -/
def findAllDesc (p : Html → Bool) : Html → List Html
  | .text _ => []
  | .elem _ _ _ k => findAllList p k

/-- First element with the given tag in a sibling list: the search performed
by `find_next_sibling(tag)` once positioned after the reference node. -/
def firstTagIn (t : String) : HtmlList → Option Html
  | .nil => none
  | .cons x xs => if isTag t x then some x else firstTagIn t xs

mutual
/-- Structural equality on markup nodes, used to model BeautifulSoup node
identity when locating a node among its parent's children.  (Identical
duplicate sibling subtrees are not distinguished.) -/
def htmlBeq : Html → Html → Bool
  | .text s, .text t => s == t
  | .elem t1 c1 s1 k1, .elem t2 c2 s2 k2 =>
    t1 == t2 && c1 == c2 && s1 == s2 && htmlListBeq k1 k2
  | _, _ => false
def htmlListBeq : HtmlList → HtmlList → Bool
  | .nil, .nil => true
  | .cons x xs, .cons y ys => htmlBeq x y && htmlListBeq xs ys
  | _, _ => false
end

/-- Scan a sibling list for `target`, then return the first later sibling
with tag `t`: the core of `target.find_next_sibling(t)`. -/
def siblingAfter (t : String) (target : Html) : HtmlList → Option Html
  | .nil => none
  | .cons x xs => if htmlBeq x target then firstTagIn t xs else siblingAfter t target xs

/-- Model of `target.find_next_sibling(t)` given the parent node. -/
def nextSiblingTag (t : String) (parent target : Html) : Option Html :=
  match parent with
  | .text _ => none
  | .elem _ _ _ k => siblingAfter t target k

/-- First label sibling following a key node, in the key's sibling list:
`k.find_next_sibling("label")` for the key/value span pattern. -/
def firstLabelIn : HtmlList → Option Html :=
  firstTagIn "label"

mutual
/-- The composite key/value span walk used by the Subordinate Court and
span-based FIR sections: every descendant satisfying `isKey` is paired with
its next `label` sibling, in document order (`find_all` + `find_next_sibling`). -/
def kvPairsNode (isKey : Html → Bool) : Html → List (String × String)
  | .text _ => []
  | .elem _ _ _ k => kvPairsList isKey k
def kvPairsList (isKey : Html → Bool) : HtmlList → List (String × String)
  | .nil => []
  | .cons x xs =>
    (if isKey x then
      match firstLabelIn xs with
      | some lbl => [(cleanText (rawTextOf x), stripLeadColons (cleanText (rawTextOf lbl)))]
      | none => []
    else [])
    ++ kvPairsNode isKey x ++ kvPairsList isKey xs
end

/-! ## Extraction engine: `parse_html_data`

The normalized record: each named section is a string, a key/value mapping,
or a table (list of mappings), mirroring the runtime types stored in
`parsed_data`. -/

inductive Content where
  | str : String → Content
  | kv : List (String × String) → Content
  | table : List (List (String × String)) → Content
deriving DecidableEq

/-- The result of `parse_html_data`: a Python dict from section names to
section content, modelled as an insertion-ordered association list (the
top-level keys are distinct literals, so assignments are appends). -/
abbrev ParsedData := List (String × Content)

/-- A label found with `string=re.compile(pat)` (substring search on the
node's `.string`, case-sensitive as in the source patterns). -/
def labelMatches (pat : String) (n : Html) : Bool :=
  isTag "label" n &&
    (match nodeStr n with
     | some s => containsSub s pat
     | none => false)

/-- Flattened text of the `case_details_table` row containing the first
label matching `pat`: `find(label) -> find_parent(span, class_) ->
get_text(separator=" ", strip=True)`. -/
def detailRowText (doc : Html) (pat : String) : Option String :=
  match findTop (labelMatches pat) doc with
  | none => none
  | some (_, anc) =>
    match anc.find? (fun a => isTag "span" a && hasClass "case_details_table" a) with
    | none => none
    | some row => some (getTextSep " " row)

/-- The `Case Type` entry of the Case Details section. -/
def caseTypeEntries (doc : Html) : List (String × String) :=
  match detailRowText doc "Case Type" with
  | none => []
  | some t =>
    match colonValue t with
    | none => []
    | some v => [("Case Type", v)]

/-- Flattened text of the Filing row, when its label is present. -/
def filingRowText (doc : Html) : Option String :=
  detailRowText doc "Filing Number"

/-- The paired Filing Number / Filing Date pattern. -/
def filingPaired (t : String) : Option (String × String) :=
  pairedMatch "filing number" "filing date" t

/-- Filing entries: paired match first, whole-text fallback otherwise. -/
def filingEntries (doc : Html) : List (String × String) :=
  match filingRowText doc with
  | none => []
  | some t =>
    match filingPaired t with
    | some (a, b) => [("Filing Number", a), ("Filing Date", b)]
    | none => [("Filing Details", t)]

/-- Flattened text of the Registration row, when its label is present. -/
def regRowText (doc : Html) : Option String :=
  detailRowText doc "Registration Number"

/-- The paired Registration Number / Registration Date pattern. -/
def regPaired (t : String) : Option (String × String) :=
  pairedMatch "registration number" "registration date" t

/-- Registration entries: paired match first, whole-text fallback otherwise. -/
def regEntries (doc : Html) : List (String × String) :=
  match regRowText doc with
  | none => []
  | some t =>
    match regPaired t with
    | some (a, b) => [("Registration Number", a), ("Registration Date", b)]
    | none => [("Registration Details", t)]

/-- The `CNR Number` entry of the Case Details section. -/
def cnrEntries (doc : Html) : List (String × String) :=
  match detailRowText doc "CNR Number" with
  | none => []
  | some t =>
    match colonValue t with
    | none => []
    | some v => [("CNR Number", v)]

/-- The Case Details section: the four label-anchored extractors in source
order (their keys are distinct, so dict assignment is concatenation). -/
def caseDetails (doc : Html) : List (String × String) :=
  caseTypeEntries doc ++ filingEntries doc ++ regEntries doc ++ cnrEntries doc

/-- The highlighted status `div` (style containing the fixed color). -/
def statusDivOf (doc : Html) : Option Html :=
  (findTop (fun n => isTag "div" n && styleContains "background-color:#FBF6D9" n) doc).map
    Prod.fst

/-- The Case Status section: for every `label` in the status div with at
least two `strong` children, pair their texts. -/
def caseStatus (doc : Html) : List (String × String) :=
  match statusDivOf doc with
  | none => []
  | some dv =>
    pyDictOfPairs ((findAllDesc (isTag "label") dv).filterMap (fun lbl =>
      match findAllDesc (isTag "strong") lbl with
      | s0 :: s1 :: _ =>
        some (cleanText (rawTextOf s0), stripLeadColons (cleanText (rawTextOf s1)))
      | _ => none))

/-- Flattened text of the petitioner span, when present. -/
def petText (doc : Html) : Option String :=
  ((findTop (fun n => isTag "span" n && hasClass "Petitioner_Advocate_table" n) doc).map
    Prod.fst).map (fun n => cleanText (getTextSep "\n" n))

/-- Flattened text of the respondent span, when present. -/
def resText (doc : Html) : Option String :=
  ((findTop (fun n => isTag "span" n && hasClass "Respondent_Advocate_table" n) doc).map
    Prod.fst).map (fun n => cleanText (getTextSep "\n" n))

/-- First table-like container with the given class. -/
def tableWithClass (c : String) (doc : Html) : Option Html :=
  (findTop (fun n => isTag "table" n && hasClass c n) doc).map Prod.fst

/-- Header cell texts: `[th.get_text(strip=True) for th in t.find_all("th")]`. -/
def thTextsOf (t : Html) : List String :=
  (findAllDesc (isTag "th") t).map (getTextSep "")

/-- All `tr` descendants of a table. -/
def trsOf (t : Html) : List Html :=
  findAllDesc (isTag "tr") t

/-- Data cell texts of a row, with the given text separator. -/
def tdTexts (sep : String) (tr : Html) : List String :=
  (findAllDesc (isTag "td") tr).map (getTextSep sep)

/-- The row-zipping step shared by every tabular extractor: a row is kept
exactly when its column count equals the header count, in which case
headers and cells are zipped into a dict; mismatched rows are dropped. -/
def tableRows (headers : List String) (rowsCols : List (List String)) :
    List (List (String × String)) :=
  rowsCols.filterMap (fun cols =>
    if cols.length = headers.length then some (pyDictOfPairs (headers.zip cols)) else none)

/-- Header list declared by the Acts table (empty when no table). -/
def actsHeaders (doc : Html) : List String :=
  match tableWithClass "Acts_table" doc with
  | none => []
  | some t => thTextsOf t

/-- The Acts section: `th` headers, rows after the first `tr`. -/
def actsData (doc : Html) : List (List (String × String)) :=
  match tableWithClass "Acts_table" doc with
  | none => []
  | some t => tableRows (thTextsOf t) (((trsOf t).drop 1).map (tdTexts ""))

/-- Key spans of the fixed-width key/value pattern. -/
def isKeySpan (n : Html) : Bool :=
  isTag "span" n && styleContains "width:150px" n

/-- The `Lower_court_table` span anchoring the subordinate-court section. -/
def lowerCourtSpanOf (doc : Html) : Option Html :=
  (findTop (fun n => isTag "span" n && hasClass "Lower_court_table" n) doc).map Prod.fst

/-- The Subordinate Court Information section. -/
def subCourtData (doc : Html) : List (String × String) :=
  match lowerCourtSpanOf doc with
  | none => []
  | some sp => pyDictOfPairs (kvPairsNode isKeySpan sp)

/-- The FIR Details section: table form first (`th` headers with a
first-row fallback), span form otherwise. -/
def firData (doc : Html) : List (List (String × String)) :=
  match tableWithClass "FIR_details_table" doc with
  | some t =>
    let ths := thTextsOf t
    let trs := trsOf t
    let headers :=
      if ths = [] then
        match trs with
        | [] => []
        | tr0 :: _ => tdTexts "" tr0
      else ths
    if headers = [] then []
    else tableRows headers ((trs.drop 1).map (tdTexts ""))
  | none =>
    match (findTop (fun n => isTag "span" n && hasClass "FIR_details_table" n) doc).map
        Prod.fst with
    | none => []
    | some sp =>
      let info := pyDictOfPairs (kvPairsNode isKeySpan sp)
      if info = [] then [] else [info]

/-- The IA Details section (cells flattened with a space separator). -/
def iaData (doc : Html) : List (List (String × String)) :=
  match tableWithClass "IAheading" doc with
  | none => []
  | some t => tableRows (thTextsOf t) (((trsOf t).drop 1).map (tdTexts " "))

/-- The Orders section: headers come from the `td`s of the first `tr`. -/
def ordersData (doc : Html) : List (List (String × String)) :=
  match tableWithClass "order_table" doc with
  | none => []
  | some t =>
    match trsOf t with
    | [] => []
    | htr :: _ => tableRows (tdTexts "" htr) (((trsOf t).drop 1).map (tdTexts ""))

/-- The `h2` heading anchoring the Category Details section. -/
def isCatHeader (n : Html) : Bool :=
  isTag "h2" n &&
    (match nodeStr n with
     | some s => containsSub s "Category Details"
     | none => false)

/-- Nearest `table` ancestor together with its own parent, from an
ancestor chain (nearest ancestor first). -/
def tableAndParent : List Html → Option (Html × Option Html)
  | [] => none
  | a :: rest =>
    if isTag "table" a then some (a, rest.head?) else tableAndParent rest

/-- The Category Details section: locate the heading's enclosing table,
move to its next `table` sibling, and read `cols[0] -> cols[1]` from every
row with at least two cells. -/
def catData (doc : Html) : List (String × String) :=
  match findTop isCatHeader doc with
  | none => []
  | some (_, anc) =>
    match tableAndParent anc with
    | none => []
    | some (_, none) => []
    | some (ht, some par) =>
      match nextSiblingTag "table" par ht with
      | none => []
      | some dt =>
        pyDictOfPairs (((trsOf dt).map (tdTexts "")).filterMap (fun cols =>
          match cols with
          | c0 :: c1 :: _ => some (c0, c1)
          | _ => none))

/-- The conditional Petitioner segment of the result dict. -/
def petSegment (doc : Html) : ParsedData :=
  match petText doc with
  | none => []
  | some t => [("Petitioner and Advocate", .str t)]

/-- The conditional Respondent segment of the result dict. -/
def resSegment (doc : Html) : ParsedData :=
  match resText doc with
  | none => []
  | some t => [("Respondent and Advocate", .str t)]

/-- The conditional FIR segment of the result dict (`if fir_data:`). -/
def firSegment (doc : Html) : ParsedData :=
  if firData doc = [] then [] else [("FIR Details", .table (firData doc))]

/-- Model of `parse_html_data`: sections are assigned in source order;
`Petitioner and Advocate`, `Respondent and Advocate` and `FIR Details` are
assigned only under their guards, the other seven unconditionally. -/
def parseHtmlData (doc : Html) : ParsedData :=
  [("Case Details", .kv (caseDetails doc)), ("Case Status", .kv (caseStatus doc))]
  ++ petSegment doc
  ++ resSegment doc
  ++ [("Acts", .table (actsData doc)),
      ("Subordinate Court Information", .kv (subCourtData doc))]
  ++ firSegment doc
  ++ [("IA Details", .table (iaData doc)), ("Orders", .table (ordersData doc)),
      ("Category Details", .kv (catData doc))]

/-! ## Report renderer: `create_pdf`

The renderer walks the parsed dict and lays out blocks on A4 pages (units:
mm).  Content starts at `y = 30` on each page (10mm top margin, the 10mm
header cell, `ln(10)`).  The source adds explicit page breaks — before a
section header when `y > 250` and before every key/value or table row when
`y > 260` — and on top of that the library's automatic page break applies:
`create_pdf` never disables it, so `cell` begins a new page whenever a
line would cross the break trigger `y = 277` (A4 height 297mm minus the
default 20mm bottom margin), and `multi_cell` renders line by line through
`cell`, so an overflowing column flows onto the next page while the
bordered row rectangle is afterwards drawn on the then-current page from
the remembered `y_start` with height `max(column ends) - y_start`
(possibly negative).  Each text line is 6mm tall; `multi_cell` splits its
text at explicit newline characters (long-line wrapping at the column
width is not modelled: each newline-separated segment is assumed to fit
its column, so a block's modelled height is a lower bound of its rendered
height).  `ln`, `set_xy` and `rect` never trigger the automatic break.
We track the vertical geometry and the rendered text of every block. -/

/-- Number of rendered lines of a `multi_cell` text: one more than the
number of explicit newline characters. -/
def nLines (s : String) : Nat :=
  1 + (s.data.filter (· == '\n')).length

/-- Replacement of one character under `encode('latin-1', 'replace')`:
representable characters pass through, others become `'?'`. -/
def latin1Char (c : Char) : Char :=
  if c.toNat ≤ 255 then c else '?'

/-- Model of `str(x).encode('latin-1', 'replace').decode('latin-1')`:
character-by-character substitution. -/
def toLatin1 (s : String) : String :=
  ⟨s.data.map latin1Char⟩

/-- The block kinds produced while walking the record. -/
inductive BlockKind where
  | sectionHeader
  | keyValueRow
  | tableHeaderRow
  | tableDataRow
  | textBlock
  | noRecordsRow
deriving DecidableEq

/-- One rendered block: its kind, the texts written into it, the page it
lands on and its vertical extent `[y0, y1]` on that page. -/
structure Block where
  kind : BlockKind
  cellTexts : List String
  page : Nat
  y0 : Nat
  y1 : Nat
deriving DecidableEq

/-- Renderer state: current page number, vertical cursor, emitted blocks. -/
structure RState where
  page : Nat
  y : Nat
  blocks : List Block
deriving DecidableEq

/-- State after `pdf.add_page()` at the start of `create_pdf`. -/
def initState : RState := ⟨1, 30, []⟩

/-- Bottom of the printable area: the automatic page-break trigger (A4
height minus the library's default 20mm bottom margin). -/
def printableBottom : Nat := 277

/-- Append a block of height `h` at the cursor and advance the cursor:
used only for the section-header cell and the placeholder cell, which the
section flow always reaches with `y ≤ 250` resp. `y ≤ 258`, so the
library's `y + h > 277` break condition on those two `cell` calls can
never fire and is elided here; every row and text block goes through
`cellLine`, which does model the automatic break. -/
def emit (st : RState) (k : BlockKind) (ts : List String) (h : Nat) : RState :=
  ⟨st.page, st.y + h, st.blocks ++ [⟨k, ts, st.page, st.y, st.y + h⟩]⟩

/-- Model of `if pdf.get_y() > limit: pdf.add_page()`. -/
def breakIfPast (limit : Nat) (st : RState) : RState :=
  if limit < st.y then ⟨st.page + 1, 30, st.blocks⟩ else st

/-- One 6mm line written by `multi_cell` through `cell`, on a
`(page, y)` cursor: the automatic page break fires when the line would
cross the trigger (`y + 6 > 277`), starting a new page whose content
begins at `y = 30` (after the custom header); the line then advances the
cursor by its height. -/
def cellLine (p : Nat × Nat) : Nat × Nat :=
  if printableBottom < p.2 + 6 then (p.1 + 1, 36) else (p.1, p.2 + 6)

/-- A whole `multi_cell`: its lines written one after another. -/
def multiCellAdvance : Nat → Nat × Nat → Nat × Nat
  | 0, p => p
  | n + 1, p => multiCellAdvance n (cellLine p)

/-- One column of a row: written from the row's `y_start` on the
then-current page (`set_xy` restores `y`, not the page), accumulating the
largest column end. -/
def rowStep (y0 : Nat) (acc : Nat × Nat) (n : Nat) : Nat × Nat :=
  let p := multiCellAdvance n (acc.1, y0)
  (p.1, max acc.2 p.2)

/-- One row of side-by-side `multi_cell` columns; returns the final page
and `max(ys)`, the largest column end. -/
def rowAdvance (ls : List Nat) (pg y0 : Nat) : Nat × Nat :=
  ls.foldl (rowStep y0) (pg, 0)

/-- Height of a key/value row: the taller of the two wrapped columns. -/
def kvRowH (k v : String) : Nat :=
  6 * max (nLines k) (nLines v)

/-- Height of a key/value row of the record (texts already substituted). -/
def kvRowHeightOf (e : String × String) : Nat :=
  kvRowH (toLatin1 e.1) (toLatin1 e.2)

/-- Total height of the key/value rows of a mapping section. -/
def sumKvH (l : List (String × String)) : Nat :=
  (l.map kvRowHeightOf).sum

/-- Render one key/value row: the explicit near-bottom check, the key
column from `y_start`, the value column from `y_start` on the page the key
ended on (`set_xy` restores `y`, not the page), then the two border
rectangles on the final page from `y_start` with height
`max(y_end_k, y_end_v) - y_start` and the cursor at that maximum. -/
def renderKvRow (st : RState) (e : String × String) : RState :=
  let st := breakIfPast 260 st
  let sk := toLatin1 e.1
  let sv := toLatin1 e.2
  let pk := multiCellAdvance (nLines sk) (st.page, st.y)
  let pv := multiCellAdvance (nLines sv) (pk.1, st.y)
  ⟨pv.1, max pk.2 pv.2,
   st.blocks ++ [⟨.keyValueRow, [sk, sv], pv.1, st.y, max pk.2 pv.2⟩]⟩

/-- The texts of one table data row: the first entry's keys looked up in
the row's dict, `""` when absent (`row.get(h, "")`), substituted. -/
def rowCells (headers : List String) (row : List (String × String)) : List String :=
  headers.map (fun h => toLatin1 (((row.lookup h).getD "")))

/-- Render one table data row: the explicit near-bottom check, one
`multi_cell` per header column each starting at the row's `y_start`, then
the border rectangles on the final page with height `max(ys) - y_start`
and the cursor at `max(ys)`. -/
def renderTableRow (headers : List String) (st : RState) (row : List (String × String)) :
    RState :=
  let st := breakIfPast 260 st
  let cells := rowCells headers row
  let r := rowAdvance (cells.map nLines) st.page st.y
  ⟨r.1, r.2, st.blocks ++ [⟨.tableDataRow, cells, r.1, st.y, r.2⟩]⟩

/-- Render the content of one section, by runtime kind: key/value mapping,
table (placeholder row when empty, header + every entry otherwise, with the
headers taken from the first entry's keys), or raw text block. -/
def renderContent (st : RState) : Content → RState
  | .kv entries => entries.foldl renderKvRow st
  | .table rows =>
    match rows with
    | [] => emit st .noRecordsRow ["No records found."] 6
    | r0 :: rest =>
      let headers := r0.map Prod.fst
      if headers.length = 0 then st
      else
        let st := breakIfPast 260 st
        let hcells := headers.map toLatin1
        let rh := rowAdvance (hcells.map nLines) st.page st.y
        let st : RState := ⟨rh.1, rh.2,
          st.blocks ++ [⟨.tableHeaderRow, hcells, rh.1, st.y, rh.2⟩]⟩
        (r0 :: rest).foldl (renderTableRow headers) st
  | .str s =>
    let t := toLatin1 s
    let p := multiCellAdvance (nLines t) (st.page, st.y)
    ⟨p.1, p.2, st.blocks ++ [⟨.textBlock, [t], p.1, st.y, p.2⟩]⟩

/-- Render one section: near-bottom check at 250, the full-width header
cell (its text is written without encoding in the source), the content,
then `ln(5)` (which never triggers the automatic break). -/
def renderSection (st : RState) (sec : String × Content) : RState :=
  let st := breakIfPast 250 st
  let st := emit st .sectionHeader [sec.1] 8
  let st := renderContent st sec.2
  ⟨st.page, st.y + 5, st.blocks⟩

/-- Model of `create_pdf` on a parsed dict: one section per entry. -/
def renderReport (d : ParsedData) : RState :=
  d.foldl renderSection initState

/-! ## Outcome classifier

The per-poll classification inside the CAPTCHA validation loop
(`scrape_ecourts`, validation while-loop): alert check, rejection phrases
in the lowered body text, visible success elements, no-records phrases,
otherwise keep polling. -/

/-- One observed state of the page during validation polling. -/
structure Snapshot where
  alertPresent : Bool
  bodyText : String
  successRegionVisible : Bool

/-- Classification outcome of one poll. -/
inductive Outcome where
  | rejected
  | success
  | pending
deriving DecidableEq

/-- The fixed rejection phrases checked against the lowered body text. -/
def rejectionPhrases : List String :=
  ["invalid captcha", "wrong captcha", "does not match", "verification code"]

/-- The fixed no-records phrases checked against the lowered body text. -/
def noRecordsPhrases : List String :=
  ["record not found", "no records found"]

/-- Any rejection phrase occurs in the lowered body text. -/
def hasRejectionPhrase (s : Snapshot) : Bool :=
  rejectionPhrases.any (fun p => containsSub (lowerStr s.bodyText) p)

/-- Any no-records phrase occurs in the lowered body text. -/
def hasNoRecordsPhrase (s : Snapshot) : Bool :=
  noRecordsPhrases.any (fun p => containsSub (lowerStr s.bodyText) p)

/-- The outcome classifier: the checks in source order, first match wins. -/
def classify (s : Snapshot) : Outcome :=
  if s.alertPresent then .rejected
  else if hasRejectionPhrase s then .rejected
  else if s.successRegionVisible then .success
  else if hasNoRecordsPhrase s then .success
  else .pending

/-! ## Challenge resolution loop

The `for attempt in range(max_attempts)` loop of `scrape_ecourts`: refresh,
image-load check, OCR with alphanumeric cleaning, submit, then the bounded
validation poll (15s window at ~0.5s per poll).  Collaborator behaviour is
an environment indexed by attempt number. -/

/-- Model of `re.sub(r'[^a-zA-Z0-9]', '', ocr_text)` (the preceding
`.strip()` removes only whitespace, which the filter removes as well). -/
def cleanOcr (s : String) : String :=
  ⟨s.data.filter Char.isAlphanum⟩

/-- Poll the classifier over successive snapshots until success, rejection
or window expiry; expiry counts as a rejection for retry purposes. -/
def pollValidation (snaps : Nat → Snapshot) : Nat → Nat → Bool
  | _, 0 => false
  | i, n + 1 =>
    match classify (snaps i) with
    | .rejected => false
    | .success => true
    | .pending => pollValidation snaps (i + 1) n

/-- Number of polls in the 15-second validation window (0.5s apart). -/
def pollBudget : Nat := 30

/-- Collaborator behaviour during one attempt: whether the challenge image
reports loaded, the recognizer's text, and the polled snapshots. -/
structure AttemptEnv where
  imageLoaded : Bool
  ocrText : String
  snapshots : Nat → Snapshot

/-- One attempt: skip when the image has not loaded or the cleaned OCR text
is empty, otherwise submit and poll; `true` means the CAPTCHA was accepted. -/
def runAttempt (env : AttemptEnv) : Bool :=
  if env.imageLoaded = false then false
  else if cleanOcr env.ocrText = "" then false
  else pollValidation env.snapshots 0 pollBudget

/-- Result of the bounded loop: attempts consumed and whether it solved. -/
structure LoopResult where
  attemptsUsed : Nat
  solved : Bool
deriving DecidableEq

/-- The attempt loop from attempt index `i` with `n` attempts remaining. -/
def resolveFrom (envs : Nat → AttemptEnv) : Nat → Nat → LoopResult
  | _, 0 => ⟨0, false⟩
  | i, n + 1 =>
    if runAttempt (envs i) then ⟨1, true⟩
    else
      let r := resolveFrom envs (i + 1) n
      ⟨r.attemptsUsed + 1, r.solved⟩

/-- The source's attempt cap (`max_attempts = 5`). -/
def maxAttemptsDefault : Nat := 5

/-- The whole resolution loop with attempt cap `m`. -/
def resolveCaptcha (envs : Nat → AttemptEnv) (m : Nat) : LoopResult :=
  resolveFrom envs 0 m

/-- The caller-visible resolution outcome: an unsolved loop degrades to the
manual-intervention path (`if not captcha_solved: ... manually`). -/
inductive ResolutionResult where
  | solved
  | requiresManualIntervention
deriving DecidableEq

/-- Map the loop result to the caller-visible outcome. -/
def resolutionOutcome (r : LoopResult) : ResolutionResult :=
  if r.solved then .solved else .requiresManualIntervention

/-! ## Capture artifact lifecycle

Within one attempt, `temp_captcha.png` is written by `screenshot`, then OCR
runs, then the file is removed (`if os.path.exists: os.remove`) before
submission and validation.  An exception raised by the OCR call jumps to
the attempt's `except` handler without reaching the removal. -/

/-- Behaviour of the recognition call on the captured image. -/
inductive OcrBehavior where
  | ocrReturns : String → OcrBehavior
  | ocrRaises : OcrBehavior

/-- Whether the temporary capture file exists. -/
structure FileSys where
  tempCaptcha : Bool
deriving DecidableEq

/-- File-system effect of one attempt body: nothing is written when the
image never loads (the attempt skips before capturing); otherwise the
screenshot creates the file, and the removal runs only if the OCR call
returns (on an OCR exception control reaches the `except` handler with the
file still present; the submit/validate steps after the removal touch no
files). -/
def attemptFileState (imageLoaded : Bool) (ocr : OcrBehavior) (fs : FileSys) : FileSys :=
  if imageLoaded = false then fs
  else
    let fs1 : FileSys := ⟨true⟩
    match ocr with
    | .ocrRaises => fs1
    | .ocrReturns _ => ⟨false⟩

/-! ## Process boundary: `handle_scrape_request`

The Flask handler: three request fields, Python-truthiness validation
(absent or empty string fails), the core invocation and the mapping of its
result dict to HTTP responses. -/

/-- The JSON request at the boundary; `none` models an absent field. -/
structure ScrapeRequest where
  case_type : Option String
  case_number : Option String
  year : Option String

/-- Result of the core pipeline `scrape_ecourts` as the handler sees it:
an operational failure (`{"status": "error"}`), a case-type-not-found error
(`{"error": ...}`), or scraped text and markup. -/
inductive CoreOutcome where
  | opFailure : String → CoreOutcome
  | choiceNotFound : String → CoreOutcome
  | scraped : String → String → CoreOutcome

/-- The handler's response: status code, whether the core pipeline was
invoked, and the attachment name and content type when a file is sent. -/
structure BoundaryResponse where
  status : Nat
  coreInvoked : Bool
  fileName : Option String
  mimeType : Option String
deriving DecidableEq

/-- Model of `handle_scrape_request`: `if not all([...])` rejects with 400
before the core runs (absent and empty fields are both falsy); otherwise
the core result is mapped to 500 / 400 / the PDF attachment. -/
def handleScrapeRequest (req : ScrapeRequest)
    (core : String → String → String → CoreOutcome) : BoundaryResponse :=
  match req.case_type, req.case_number, req.year with
  | some ct, some cn, some y =>
    if ct = "" ∨ cn = "" ∨ y = "" then ⟨400, false, none, none⟩
    else
      match core ct cn y with
      | .opFailure _ => ⟨500, true, none, none⟩
      | .choiceNotFound _ => ⟨400, true, none, none⟩
      | .scraped _ _ =>
        ⟨200, true, some ("Case_" ++ cn ++ "_" ++ y ++ ".pdf"), some "application/pdf"⟩
  | _, _, _ => ⟨400, false, none, none⟩

/-! ## Concrete inputs used by counterexamples and witnesses -/

/-- A well-formed document containing none of the section anchors. -/
def emptyDoc : Html := .elem "div" [] "" (hl [])

/-- An Acts table whose two header cells carry the same text, followed by
one well-sized data row. -/
def dupHeaderDoc : Html :=
  .elem "table" ["Acts_table"] "" (hl [
    .elem "tr" [] "" (hl [
      .elem "th" [] "" (hl [.text "A"]),
      .elem "th" [] "" (hl [.text "A"])]),
    .elem "tr" [] "" (hl [
      .elem "td" [] "" (hl [.text "1"]),
      .elem "td" [] "" (hl [.text "2"])])])

/-- A document with a Filing row where the paired pattern matches and a
Registration row (no colon) where it does not. -/
def filingDoc : Html :=
  .elem "div" [] "" (hl [
    .elem "span" ["case_details_table"] "" (hl [
      .elem "label" [] "" (hl [.text "Filing Number"]),
      .text " : 123/2020  Filing Date : 01-01-2020"]),
    .elem "span" ["case_details_table"] "" (hl [
      .elem "label" [] "" (hl [.text "Registration Number"]),
      .text " 55/2021"])])

/-- A value whose rendered row spans forty 6mm lines (240mm). -/
def tallValue : String := joinSep "\n" (List.replicate 40 "x")

/-- A one-section record whose single key/value row is taller than the
whole printable area below the section header. -/
def oversizedRecord : ParsedData :=
  [("Case Status", Content.kv [("History", tallValue)])]

/-- A record whose only section is a text block with one unrepresentable
character (the rupee sign). -/
def rupeeRecord : ParsedData :=
  [("Case Status", Content.str "Amount ₹500")]

/-- First table entry: sets the headers of the rendered table. -/
def tableEntryOne : List (String × String) := [("A", "1"), ("B", "2")]

/-- Second table entry: lacks the key `B`, carries an extra key `C`. -/
def tableEntryTwo : List (String × String) := [("A", "3"), ("C", "9")]

/-- A snapshot carrying no textual signal and no visible success region. -/
def stubSnapshot : Snapshot := ⟨false, "", false⟩

/-- An attempt environment whose recognizer text cleans to the empty
string (every character non-alphanumeric). -/
def emptyOcrEnv : AttemptEnv := ⟨true, "@# $!", fun _ => stubSnapshot⟩

/-- A core pipeline stub that always scrapes successfully. -/
def coreStub : String → String → String → CoreOutcome :=
  fun _ _ _ => .scraped "text" "markup"

/-! ## Association list and dictionary lemmas -/

theorem lookup_append {β : Type} (k : String) (l1 l2 : List (String × β)) :
    (l1 ++ l2).lookup k = ((l1.lookup k).orElse (fun _ => l2.lookup k)) := by
  induction l1 with
  | nil => simp [List.lookup]
  | cons p l ih =>
    cases p with
    | mk a b =>
      by_cases h : (k == a)
      · simp [List.lookup, h]
      · simp only [List.cons_append, List.lookup, h]
        simpa using ih

theorem lookup_single_ne {β : Type} {k key : String} (v : β) (h : k ≠ key) :
    ([(key, v)] : List (String × β)).lookup k = none := by
  simp [List.lookup, beq_eq_false_iff_ne.mpr h]

theorem lookup_single_eq {β : Type} (key : String) (v : β) :
    ([(key, v)] : List (String × β)).lookup key = some v := by
  simp [List.lookup]

theorem pyInsert_of_not_mem (d : List (String × String)) (k v : String)
    (h : ∀ p ∈ d, p.1 ≠ k) : pyInsert d k v = d ++ [(k, v)] := by
  have hany : d.any (fun p => p.1 == k) = false := by
    simp only [List.any_eq_false]
    intro p hp
    simpa using beq_eq_false_iff_ne.mpr (h p hp)
  simp [pyInsert, hany]

theorem pyFold_acc (l : List (String × String)) :
    ∀ acc, (∀ p ∈ l, ∀ q ∈ acc, q.1 ≠ p.1) → (l.map Prod.fst).Nodup →
    l.foldl (fun d p => pyInsert d p.1 p.2) acc = acc ++ l := by
  induction l with
  | nil => intro acc _ _; simp
  | cons p l ih =>
    intro acc hdisj hnd
    have hstep : pyInsert acc p.1 p.2 = acc ++ [p] := by
      have := pyInsert_of_not_mem acc p.1 p.2 (fun q hq => hdisj p (by simp) q hq)
      simpa using this
    have hnd0 : (p.1 :: l.map Prod.fst).Nodup := by simpa using hnd
    have hnd' : (l.map Prod.fst).Nodup := (List.nodup_cons.mp hnd0).2
    have hhead : p.1 ∉ l.map Prod.fst := (List.nodup_cons.mp hnd0).1
    have hdisj' : ∀ r ∈ l, ∀ q ∈ acc ++ [p], q.1 ≠ r.1 := by
      intro r hr q hq
      rcases List.mem_append.mp hq with hq | hq
      · exact hdisj r (by simp [hr]) q hq
      · have hqp : q = p := by simpa using hq
        subst hqp
        intro hcontra
        exact hhead (by
          exact hcontra ▸ List.mem_map.mpr ⟨r, hr, rfl⟩)
    calc (p :: l).foldl (fun d q => pyInsert d q.1 q.2) acc
        = l.foldl (fun d q => pyInsert d q.1 q.2) (pyInsert acc p.1 p.2) := by simp
      _ = (acc ++ [p]) ++ l := by rw [hstep]; exact ih (acc ++ [p]) hdisj' hnd'
      _ = acc ++ (p :: l) := by simp

theorem pyDictOfPairs_of_nodup (l : List (String × String))
    (hnd : (l.map Prod.fst).Nodup) : pyDictOfPairs l = l := by
  have := pyFold_acc l [] (by simp) hnd
  simpa [pyDictOfPairs] using this

theorem filterMap_if {α β : Type} (P : α → Prop) [DecidablePred P] (f : α → β)
    (l : List α) :
    l.filterMap (fun a => if P a then some (f a) else none)
      = (l.filter (fun a => decide (P a))).map f := by
  induction l with
  | nil => simp
  | cons a l ih =>
    by_cases h : P a
    · simp [h, ih]
    · simp [h, ih]

/-! ## Renderer state lemmas -/

theorem emit_blocks (st : RState) (k : BlockKind) (ts : List String) (h : Nat) :
    (emit st k ts h).blocks = st.blocks ++ [⟨k, ts, st.page, st.y, st.y + h⟩] := rfl

theorem breakIfPast_blocks (limit : Nat) (st : RState) :
    (breakIfPast limit st).blocks = st.blocks := by
  unfold breakIfPast; split <;> rfl

theorem breakIfPast_page_ge (limit : Nat) (st : RState) :
    st.page ≤ (breakIfPast limit st).page := by
  unfold breakIfPast; split <;> simp

theorem breakIfPast_y_le (limit : Nat) (st : RState) (h30 : 30 ≤ limit) :
    (breakIfPast limit st).y ≤ limit := by
  unfold breakIfPast
  split
  · simpa using h30
  · simpa using Nat.le_of_not_lt (by assumption)

theorem breakIfPast_of_le (limit : Nat) (st : RState) (h : st.y ≤ limit) :
    breakIfPast limit st = st := by
  unfold breakIfPast
  rw [if_neg (Nat.not_lt.mpr h)]

theorem breakIfPast_y_ge30 (limit : Nat) (st : RState) (h : 30 ≤ st.y) :
    30 ≤ (breakIfPast limit st).y := by
  unfold breakIfPast
  split
  · dsimp only; omega
  · exact h

theorem nLines_pos (s : String) : 1 ≤ nLines s := by
  unfold nLines; omega

/-! ## Automatic page-break lemmas -/

theorem cellLine_page_ge (p : Nat × Nat) : p.1 ≤ (cellLine p).1 := by
  unfold cellLine; split <;> simp

theorem cellLine_y_le (p : Nat × Nat) : (cellLine p).2 ≤ printableBottom := by
  unfold cellLine
  split
  · simp [printableBottom]
  · simpa using Nat.le_of_not_lt (by assumption)

theorem cellLine_y_ge30 (p : Nat × Nat) (h : 30 ≤ p.2) : 30 ≤ (cellLine p).2 := by
  unfold cellLine
  split <;> dsimp only <;> omega

theorem cellLine_nobreak (p : Nat × Nat) (h : (cellLine p).1 = p.1) :
    cellLine p = (p.1, p.2 + 6) := by
  by_cases hc : printableBottom < p.2 + 6
  · exfalso
    unfold cellLine at h
    rw [if_pos hc] at h
    dsimp only at h
    omega
  · unfold cellLine
    rw [if_neg hc]

theorem multiCellAdvance_page_ge : ∀ (n : Nat) (p : Nat × Nat),
    p.1 ≤ (multiCellAdvance n p).1 := by
  intro n
  induction n with
  | zero => intro p; simp [multiCellAdvance]
  | succ n ih =>
    intro p
    calc p.1 ≤ (cellLine p).1 := cellLine_page_ge p
      _ ≤ (multiCellAdvance n (cellLine p)).1 := ih (cellLine p)
      _ = (multiCellAdvance (n + 1) p).1 := rfl

theorem multiCellAdvance_y_le_aux : ∀ (n : Nat) (p : Nat × Nat),
    p.2 ≤ printableBottom → (multiCellAdvance n p).2 ≤ printableBottom := by
  intro n
  induction n with
  | zero => intro p h; simpa [multiCellAdvance] using h
  | succ n ih => intro p _; exact ih (cellLine p) (cellLine_y_le p)

theorem multiCellAdvance_y_le (n : Nat) (p : Nat × Nat) :
    (multiCellAdvance (n + 1) p).2 ≤ printableBottom :=
  multiCellAdvance_y_le_aux n (cellLine p) (cellLine_y_le p)

theorem multiCellAdvance_nLines_y_le (s : String) (p : Nat × Nat) :
    (multiCellAdvance (nLines s) p).2 ≤ printableBottom := by
  have h : nLines s = (nLines s - 1) + 1 := by
    have := nLines_pos s
    omega
  rw [h]
  exact multiCellAdvance_y_le _ p

theorem multiCellAdvance_y_ge30 : ∀ (n : Nat) (p : Nat × Nat),
    30 ≤ p.2 → 30 ≤ (multiCellAdvance n p).2 := by
  intro n
  induction n with
  | zero => intro p h; simpa [multiCellAdvance] using h
  | succ n ih => intro p h; exact ih (cellLine p) (cellLine_y_ge30 p h)

theorem multiCellAdvance_nobreak : ∀ (n : Nat) (p : Nat × Nat),
    (multiCellAdvance n p).1 = p.1 → (multiCellAdvance n p).2 = p.2 + 6 * n := by
  intro n
  induction n with
  | zero => intro p _; simp [multiCellAdvance]
  | succ n ih =>
    intro p hp
    have hstep : multiCellAdvance (n + 1) p = multiCellAdvance n (cellLine p) := rfl
    rw [hstep] at hp ⊢
    have h1 := cellLine_page_ge p
    have h2 := multiCellAdvance_page_ge n (cellLine p)
    have hc1 : (cellLine p).1 = p.1 := by omega
    rw [cellLine_nobreak p hc1] at hp ⊢
    have hy := ih (p.1, p.2 + 6) hp
    dsimp only at hy
    omega

theorem rowStep_page_ge (y0 : Nat) (acc : Nat × Nat) (n : Nat) :
    acc.1 ≤ (rowStep y0 acc n).1 := by
  unfold rowStep
  dsimp only
  simpa using multiCellAdvance_page_ge n (acc.1, y0)

theorem rowStep_y_mono (y0 : Nat) (acc : Nat × Nat) (n : Nat) :
    acc.2 ≤ (rowStep y0 acc n).2 := by
  unfold rowStep
  dsimp only
  omega

theorem rowFold_page_ge (y0 : Nat) : ∀ (ls : List Nat) (acc : Nat × Nat),
    acc.1 ≤ (ls.foldl (rowStep y0) acc).1 := by
  intro ls
  induction ls with
  | nil => intro acc; simp
  | cons n ls ih =>
    intro acc
    calc acc.1 ≤ (rowStep y0 acc n).1 := rowStep_page_ge y0 acc n
      _ ≤ ((n :: ls).foldl (rowStep y0) acc).1 := by
          simpa using ih (rowStep y0 acc n)

theorem rowFold_y_mono (y0 : Nat) : ∀ (ls : List Nat) (acc : Nat × Nat),
    acc.2 ≤ (ls.foldl (rowStep y0) acc).2 := by
  intro ls
  induction ls with
  | nil => intro acc; simp
  | cons n ls ih =>
    intro acc
    calc acc.2 ≤ (rowStep y0 acc n).2 := rowStep_y_mono y0 acc n
      _ ≤ ((n :: ls).foldl (rowStep y0) acc).2 := by
          simpa using ih (rowStep y0 acc n)

theorem rowAdvance_page_ge (ls : List Nat) (pg y0 : Nat) :
    pg ≤ (rowAdvance ls pg y0).1 := by
  unfold rowAdvance
  simpa using rowFold_page_ge y0 ls (pg, 0)

theorem rowFold_y_le (y0 : Nat) : ∀ (ls : List Nat) (acc : Nat × Nat),
    (∀ n ∈ ls, 1 ≤ n) → acc.2 ≤ printableBottom →
    (ls.foldl (rowStep y0) acc).2 ≤ printableBottom := by
  intro ls
  induction ls with
  | nil => intro acc _ h; simpa using h
  | cons n ls ih =>
    intro acc hn h
    have hstep : (rowStep y0 acc n).2 ≤ printableBottom := by
      unfold rowStep
      dsimp only
      have h1 : (multiCellAdvance n (acc.1, y0)).2 ≤ printableBottom := by
        obtain ⟨m, rfl⟩ : ∃ m, n = m + 1 := ⟨n - 1, by have := hn n (by simp); omega⟩
        exact multiCellAdvance_y_le m (acc.1, y0)
      omega
    simpa using ih (rowStep y0 acc n) (fun x hx => hn x (by simp [hx])) hstep

theorem rowAdvance_y_le (ls : List Nat) (pg y0 : Nat) (hn : ∀ n ∈ ls, 1 ≤ n) :
    (rowAdvance ls pg y0).2 ≤ printableBottom := by
  unfold rowAdvance
  exact rowFold_y_le y0 ls (pg, 0) hn (by simp [printableBottom])

theorem rowAdvance_y_ge30 (ls : List Nat) (pg y0 : Nat) (hls : ls ≠ [])
    (hn : ∀ n ∈ ls, 1 ≤ n) (h30 : 30 ≤ y0) : 30 ≤ (rowAdvance ls pg y0).2 := by
  match ls, hls with
  | n :: rest, _ =>
    unfold rowAdvance
    have h1 : 30 ≤ (rowStep y0 (pg, 0) n).2 := by
      unfold rowStep
      dsimp only
      have := multiCellAdvance_y_ge30 n (pg, y0) (by simpa using h30)
      omega
    calc 30 ≤ (rowStep y0 (pg, 0) n).2 := h1
      _ ≤ ((n :: rest).foldl (rowStep y0) (pg, 0)).2 := by
          simpa using rowFold_y_mono y0 rest (rowStep y0 (pg, 0) n)

theorem renderTableRow_blocks (headers : List String) (st : RState)
    (row : List (String × String)) :
    (renderTableRow headers st row).blocks
      = st.blocks ++ [⟨BlockKind.tableDataRow, rowCells headers row,
          (rowAdvance ((rowCells headers row).map nLines)
            (breakIfPast 260 st).page (breakIfPast 260 st).y).1,
          (breakIfPast 260 st).y,
          (rowAdvance ((rowCells headers row).map nLines)
            (breakIfPast 260 st).page (breakIfPast 260 st).y).2⟩] := by
  unfold renderTableRow
  dsimp only
  rw [breakIfPast_blocks]

/-! ## Renderer block invariants

Every block emitted by the renderer has one of six shapes.  Its starting
ordinate is controlled by the preceding near-bottom check (250 for section
headers, 260 for rows, at most 258 for the blocks that directly follow a
freshly placed section header), and its ending ordinate by the library's
automatic page break: every multi-line column ends at or above the break
trigger, so the row rectangle's bottom `max(column ends)` does too.  The
master lemma below carries an arbitrary predicate over those shapes
through the whole renderer. -/

section BlocksInvariant

variable (P : Block → Prop)

theorem foldl_blocks_inv {α : Type} (f : RState → α → RState)
    (hf : ∀ st a, (∀ b ∈ st.blocks, P b) → ∀ b ∈ (f st a).blocks, P b) :
    ∀ (l : List α) (st : RState), (∀ b ∈ st.blocks, P b) →
      ∀ b ∈ (l.foldl f st).blocks, P b := by
  intro l
  induction l with
  | nil => intro st h; simpa using h
  | cons a l ih => intro st h; exact ih (f st a) (hf st a h)

theorem renderKvRow_inv
    (h2 : ∀ pg y0 y1 k v, y0 ≤ 260 → y1 ≤ printableBottom →
      P ⟨.keyValueRow, [toLatin1 k, toLatin1 v], pg, y0, y1⟩) :
    ∀ (st : RState) (e : String × String), (∀ b ∈ st.blocks, P b) →
      ∀ b ∈ (renderKvRow st e).blocks, P b := by
  intro st e hst b hb
  unfold renderKvRow at hb
  dsimp only at hb
  rw [breakIfPast_blocks] at hb
  rcases List.mem_append.mp hb with h | h
  · exact hst b h
  · rw [List.mem_singleton.mp h]
    refine h2 _ _ _ e.1 e.2 (breakIfPast_y_le 260 st (by norm_num)) ?_
    have ha := multiCellAdvance_nLines_y_le (toLatin1 e.1)
      ((breakIfPast 260 st).page, (breakIfPast 260 st).y)
    have hbv := multiCellAdvance_nLines_y_le (toLatin1 e.2)
      ((multiCellAdvance (nLines (toLatin1 e.1))
        ((breakIfPast 260 st).page, (breakIfPast 260 st).y)).1,
       (breakIfPast 260 st).y)
    exact max_le ha hbv

theorem renderTableRow_inv
    (h4 : ∀ pg y0 y1 headers row, y0 ≤ 260 → y1 ≤ printableBottom →
      P ⟨.tableDataRow, rowCells headers row, pg, y0, y1⟩) :
    ∀ (headers : List String) (st : RState) (row : List (String × String)),
      (∀ b ∈ st.blocks, P b) → ∀ b ∈ (renderTableRow headers st row).blocks, P b := by
  intro headers st row hst b hb
  rw [renderTableRow_blocks] at hb
  rcases List.mem_append.mp hb with h | h
  · exact hst b h
  · rw [List.mem_singleton.mp h]
    refine h4 _ _ _ headers row (breakIfPast_y_le 260 st (by norm_num)) ?_
    apply rowAdvance_y_le
    intro n hn
    rcases List.mem_map.mp hn with ⟨c, _, rfl⟩
    exact nLines_pos c

theorem renderContent_inv
    (h2 : ∀ pg y0 y1 k v, y0 ≤ 260 → y1 ≤ printableBottom →
      P ⟨.keyValueRow, [toLatin1 k, toLatin1 v], pg, y0, y1⟩)
    (h3 : ∀ pg y0 y1 (headers : List String), y0 ≤ 260 → y1 ≤ printableBottom →
      P ⟨.tableHeaderRow, headers.map toLatin1, pg, y0, y1⟩)
    (h4 : ∀ pg y0 y1 headers row, y0 ≤ 260 → y1 ≤ printableBottom →
      P ⟨.tableDataRow, rowCells headers row, pg, y0, y1⟩)
    (h5 : ∀ pg y, y ≤ 260 → P ⟨.noRecordsRow, ["No records found."], pg, y, y + 6⟩)
    (h6 : ∀ pg y0 y1 s, y0 ≤ 260 → y1 ≤ printableBottom →
      P ⟨.textBlock, [toLatin1 s], pg, y0, y1⟩) :
    ∀ (st : RState) (c : Content), st.y ≤ 260 → (∀ b ∈ st.blocks, P b) →
      ∀ b ∈ (renderContent st c).blocks, P b := by
  intro st c hy hst
  cases c with
  | kv entries =>
    exact foldl_blocks_inv P renderKvRow (renderKvRow_inv P h2) entries st hst
  | str s =>
    intro b hb
    rw [renderContent] at hb
    dsimp only at hb
    rcases List.mem_append.mp hb with h | h
    · exact hst b h
    · rw [List.mem_singleton.mp h]
      exact h6 _ _ _ s hy (multiCellAdvance_nLines_y_le (toLatin1 s) (st.page, st.y))
  | table rows =>
    cases rows with
    | nil =>
      intro b hb
      rw [renderContent, emit_blocks] at hb
      rcases List.mem_append.mp hb with h | h
      · exact hst b h
      · have hb2 : b = ⟨.noRecordsRow, ["No records found."], st.page, st.y,
            st.y + 6⟩ := by simpa using h
        subst hb2
        exact h5 _ _ hy
    | cons r0 rest =>
      by_cases hh : (r0.map Prod.fst).length = 0
      · intro b hb
        rw [renderContent] at hb
        rw [if_pos hh] at hb
        exact hst b hb
      · intro b hb
        rw [renderContent] at hb
        rw [if_neg hh] at hb
        dsimp only at hb
        refine foldl_blocks_inv P (renderTableRow (r0.map Prod.fst))
          (fun st' row => renderTableRow_inv P h4 (r0.map Prod.fst) st' row)
          (r0 :: rest) _ ?_ b hb
        intro b2 hb2
        dsimp only at hb2
        rw [breakIfPast_blocks] at hb2
        rcases List.mem_append.mp hb2 with h | h
        · exact hst b2 h
        · rw [List.mem_singleton.mp h]
          refine h3 _ _ _ (r0.map Prod.fst)
            (breakIfPast_y_le 260 st (by norm_num)) ?_
          apply rowAdvance_y_le
          intro n hn
          rcases List.mem_map.mp hn with ⟨c, _, rfl⟩
          exact nLines_pos c

theorem renderSection_inv
    (h1 : ∀ pg y s, y ≤ 250 → P ⟨.sectionHeader, [s], pg, y, y + 8⟩)
    (h2 : ∀ pg y0 y1 k v, y0 ≤ 260 → y1 ≤ printableBottom →
      P ⟨.keyValueRow, [toLatin1 k, toLatin1 v], pg, y0, y1⟩)
    (h3 : ∀ pg y0 y1 (headers : List String), y0 ≤ 260 → y1 ≤ printableBottom →
      P ⟨.tableHeaderRow, headers.map toLatin1, pg, y0, y1⟩)
    (h4 : ∀ pg y0 y1 headers row, y0 ≤ 260 → y1 ≤ printableBottom →
      P ⟨.tableDataRow, rowCells headers row, pg, y0, y1⟩)
    (h5 : ∀ pg y, y ≤ 260 → P ⟨.noRecordsRow, ["No records found."], pg, y, y + 6⟩)
    (h6 : ∀ pg y0 y1 s, y0 ≤ 260 → y1 ≤ printableBottom →
      P ⟨.textBlock, [toLatin1 s], pg, y0, y1⟩) :
    ∀ (st : RState) (sec : String × Content), (∀ b ∈ st.blocks, P b) →
      ∀ b ∈ (renderSection st sec).blocks, P b := by
  intro st sec hst b hb
  have hb3 : b ∈ (renderContent
      (emit (breakIfPast 250 st) .sectionHeader [sec.1] 8) sec.2).blocks := hb
  have hy1 : (breakIfPast 250 st).y ≤ 250 := breakIfPast_y_le 250 st (by norm_num)
  have hy2 : (emit (breakIfPast 250 st) .sectionHeader [sec.1] 8).y ≤ 260 := by
    show (breakIfPast 250 st).y + 8 ≤ 260
    omega
  refine renderContent_inv P h2 h3 h4 h5 h6 _ sec.2 hy2 ?_ b hb3
  intro b2 hb2
  rw [emit_blocks, breakIfPast_blocks] at hb2
  rcases List.mem_append.mp hb2 with h | h
  · exact hst b2 h
  · have hb4 : b2 = ⟨.sectionHeader, [sec.1], (breakIfPast 250 st).page,
        (breakIfPast 250 st).y, (breakIfPast 250 st).y + 8⟩ := by simpa using h
    subst hb4
    exact h1 _ _ sec.1 hy1

theorem renderReport_inv
    (h1 : ∀ pg y s, y ≤ 250 → P ⟨.sectionHeader, [s], pg, y, y + 8⟩)
    (h2 : ∀ pg y0 y1 k v, y0 ≤ 260 → y1 ≤ printableBottom →
      P ⟨.keyValueRow, [toLatin1 k, toLatin1 v], pg, y0, y1⟩)
    (h3 : ∀ pg y0 y1 (headers : List String), y0 ≤ 260 → y1 ≤ printableBottom →
      P ⟨.tableHeaderRow, headers.map toLatin1, pg, y0, y1⟩)
    (h4 : ∀ pg y0 y1 headers row, y0 ≤ 260 → y1 ≤ printableBottom →
      P ⟨.tableDataRow, rowCells headers row, pg, y0, y1⟩)
    (h5 : ∀ pg y, y ≤ 260 → P ⟨.noRecordsRow, ["No records found."], pg, y, y + 6⟩)
    (h6 : ∀ pg y0 y1 s, y0 ≤ 260 → y1 ≤ printableBottom →
      P ⟨.textBlock, [toLatin1 s], pg, y0, y1⟩) :
    ∀ (d : ParsedData), ∀ b ∈ (renderReport d).blocks, P b := by
  intro d
  refine foldl_blocks_inv P renderSection
    (renderSection_inv P h1 h2 h3 h4 h5 h6) d initState ?_
  intro b hb
  simp [initState] at hb

end BlocksInvariant

/-! ## Page monotonicity and pagination lemmas -/

theorem renderKvRow_page_ge (st : RState) (e : String × String) :
    st.page ≤ (renderKvRow st e).page := by
  unfold renderKvRow
  dsimp only
  have h1 := breakIfPast_page_ge 260 st
  have h2 := multiCellAdvance_page_ge (nLines (toLatin1 e.1))
    ((breakIfPast 260 st).page, (breakIfPast 260 st).y)
  have h3 := multiCellAdvance_page_ge (nLines (toLatin1 e.2))
    ((multiCellAdvance (nLines (toLatin1 e.1))
      ((breakIfPast 260 st).page, (breakIfPast 260 st).y)).1,
     (breakIfPast 260 st).y)
  dsimp only at h2 h3
  omega

theorem kvFold_page_ge (l : List (String × String)) :
    ∀ st : RState, st.page ≤ (l.foldl renderKvRow st).page := by
  induction l with
  | nil => intro st; simp
  | cons e l ih =>
    intro st
    calc st.page ≤ (renderKvRow st e).page := renderKvRow_page_ge st e
      _ ≤ ((e :: l).foldl renderKvRow st).page := by
        simpa using ih (renderKvRow st e)

theorem renderTableRow_page_ge (headers : List String) (st : RState)
    (row : List (String × String)) :
    st.page ≤ (renderTableRow headers st row).page := by
  unfold renderTableRow
  dsimp only
  have h1 := breakIfPast_page_ge 260 st
  have h2 := rowAdvance_page_ge ((rowCells headers row).map nLines)
    (breakIfPast 260 st).page (breakIfPast 260 st).y
  omega

theorem tableFold_page_ge (headers : List String)
    (rows : List (List (String × String))) :
    ∀ st : RState, st.page ≤ (rows.foldl (renderTableRow headers) st).page := by
  induction rows with
  | nil => intro st; simp
  | cons r rows ih =>
    intro st
    calc st.page ≤ (renderTableRow headers st r).page := renderTableRow_page_ge headers st r
      _ ≤ ((r :: rows).foldl (renderTableRow headers) st).page := by
        simpa using ih (renderTableRow headers st r)

theorem renderContent_page_ge (st : RState) (c : Content) :
    st.page ≤ (renderContent st c).page := by
  cases c with
  | kv entries => exact kvFold_page_ge entries st
  | str s =>
    show st.page ≤ (multiCellAdvance (nLines (toLatin1 s)) (st.page, st.y)).1
    simpa using multiCellAdvance_page_ge (nLines (toLatin1 s)) (st.page, st.y)
  | table rows =>
    cases rows with
    | nil => simp [renderContent, emit]
    | cons r0 rest =>
      by_cases hh : (r0.map Prod.fst).length = 0
      · rw [renderContent]
        rw [if_pos hh]
      · rw [renderContent]
        rw [if_neg hh]
        dsimp only
        have h1 := breakIfPast_page_ge 260 st
        have h2 := rowAdvance_page_ge (((r0.map Prod.fst).map toLatin1).map nLines)
          (breakIfPast 260 st).page (breakIfPast 260 st).y
        have h3 := tableFold_page_ge (r0.map Prod.fst) (r0 :: rest)
          ⟨(rowAdvance (((r0.map Prod.fst).map toLatin1).map nLines)
              (breakIfPast 260 st).page (breakIfPast 260 st).y).1,
            (rowAdvance (((r0.map Prod.fst).map toLatin1).map nLines)
              (breakIfPast 260 st).page (breakIfPast 260 st).y).2,
            (breakIfPast 260 st).blocks
              ++ [⟨BlockKind.tableHeaderRow, (r0.map Prod.fst).map toLatin1,
                  (rowAdvance (((r0.map Prod.fst).map toLatin1).map nLines)
                    (breakIfPast 260 st).page (breakIfPast 260 st).y).1,
                  (breakIfPast 260 st).y,
                  (rowAdvance (((r0.map Prod.fst).map toLatin1).map nLines)
                    (breakIfPast 260 st).page (breakIfPast 260 st).y).2⟩]⟩
        dsimp only at h3
        omega

theorem renderSection_page_ge (st : RState) (sec : String × Content) :
    st.page ≤ (renderSection st sec).page := by
  have h1 := breakIfPast_page_ge 250 st
  have h2 := renderContent_page_ge
    (emit (breakIfPast 250 st) .sectionHeader [sec.1] 8) sec.2
  have h3 : (emit (breakIfPast 250 st) .sectionHeader [sec.1] 8).page
      = (breakIfPast 250 st).page := rfl
  have h4 : (renderSection st sec).page
      = (renderContent (emit (breakIfPast 250 st) .sectionHeader [sec.1] 8) sec.2).page :=
    rfl
  omega

theorem sectionsFold_page_ge (l : ParsedData) :
    ∀ st : RState, st.page ≤ (l.foldl renderSection st).page := by
  induction l with
  | nil => intro st; simp
  | cons sec l ih =>
    intro st
    calc st.page ≤ (renderSection st sec).page := renderSection_page_ge st sec
      _ ≤ ((sec :: l).foldl renderSection st).page := by
        simpa using ih (renderSection st sec)

theorem renderKvRow_nobreak (st : RState) (e : String × String)
    (h : (renderKvRow st e).page = st.page) :
    st.y ≤ 260 ∧ (renderKvRow st e).y = st.y + kvRowHeightOf e
      ∧ (renderKvRow st e).y ≤ printableBottom := by
  have hy : st.y ≤ 260 := by
    by_contra hgt
    have hb1 : breakIfPast 260 st = ⟨st.page + 1, 30, st.blocks⟩ := by
      unfold breakIfPast
      rw [if_pos (Nat.lt_of_not_le hgt)]
    have h2 : st.page + 1 ≤ (renderKvRow st e).page := by
      unfold renderKvRow
      rw [hb1]
      dsimp only
      have ha := multiCellAdvance_page_ge (nLines (toLatin1 e.1)) (st.page + 1, 30)
      have hbv := multiCellAdvance_page_ge (nLines (toLatin1 e.2))
        ((multiCellAdvance (nLines (toLatin1 e.1)) (st.page + 1, 30)).1, 30)
      dsimp only at ha hbv
      omega
    omega
  have hbe : breakIfPast 260 st = st := breakIfPast_of_le 260 st hy
  have hpage2 : (renderKvRow st e).page
      = (multiCellAdvance (nLines (toLatin1 e.2))
          ((multiCellAdvance (nLines (toLatin1 e.1)) (st.page, st.y)).1, st.y)).1 := by
    unfold renderKvRow
    rw [hbe]
  have hy2 : (renderKvRow st e).y
      = max (multiCellAdvance (nLines (toLatin1 e.1)) (st.page, st.y)).2
          (multiCellAdvance (nLines (toLatin1 e.2))
            ((multiCellAdvance (nLines (toLatin1 e.1)) (st.page, st.y)).1, st.y)).2 := by
    unfold renderKvRow
    rw [hbe]
  have hchain1 : st.page ≤ (multiCellAdvance (nLines (toLatin1 e.1)) (st.page, st.y)).1 := by
    simpa using multiCellAdvance_page_ge (nLines (toLatin1 e.1)) (st.page, st.y)
  have hchain2 : (multiCellAdvance (nLines (toLatin1 e.1)) (st.page, st.y)).1
      ≤ (multiCellAdvance (nLines (toLatin1 e.2))
          ((multiCellAdvance (nLines (toLatin1 e.1)) (st.page, st.y)).1, st.y)).1 := by
    simpa using multiCellAdvance_page_ge (nLines (toLatin1 e.2))
      ((multiCellAdvance (nLines (toLatin1 e.1)) (st.page, st.y)).1, st.y)
  have hpk1 : (multiCellAdvance (nLines (toLatin1 e.1)) (st.page, st.y)).1 = st.page := by
    rw [hpage2] at h
    omega
  have hk2 : (multiCellAdvance (nLines (toLatin1 e.1)) (st.page, st.y)).2
      = st.y + 6 * nLines (toLatin1 e.1) := by
    have := multiCellAdvance_nobreak (nLines (toLatin1 e.1)) (st.page, st.y)
      (by simpa using hpk1)
    simpa using this
  have hv2 : (multiCellAdvance (nLines (toLatin1 e.2))
      ((multiCellAdvance (nLines (toLatin1 e.1)) (st.page, st.y)).1, st.y)).2
      = st.y + 6 * nLines (toLatin1 e.2) := by
    have hpv1 : (multiCellAdvance (nLines (toLatin1 e.2))
        ((multiCellAdvance (nLines (toLatin1 e.1)) (st.page, st.y)).1, st.y)).1
        = ((multiCellAdvance (nLines (toLatin1 e.1)) (st.page, st.y)).1, st.y).1 := by
      dsimp only
      rw [hpage2] at h
      omega
    have := multiCellAdvance_nobreak (nLines (toLatin1 e.2))
      ((multiCellAdvance (nLines (toLatin1 e.1)) (st.page, st.y)).1, st.y) hpv1
    simpa using this
  have hkle := multiCellAdvance_nLines_y_le (toLatin1 e.1) (st.page, st.y)
  have hvle := multiCellAdvance_nLines_y_le (toLatin1 e.2)
    ((multiCellAdvance (nLines (toLatin1 e.1)) (st.page, st.y)).1, st.y)
  refine ⟨hy, ?_, ?_⟩
  · rw [hy2, hk2, hv2]
    simp only [kvRowHeightOf, kvRowH]
    omega
  · rw [hy2]
    exact max_le hkle hvle

theorem kvFold_nobreak (l : List (String × String)) :
    ∀ st : RState, (l.foldl renderKvRow st).page = st.page →
    (l.foldl renderKvRow st).y = st.y + sumKvH l
    ∧ (l = [] ∨ (l.foldl renderKvRow st).y ≤ printableBottom) := by
  induction l with
  | nil => intro st _; simp [sumKvH]
  | cons e l ih =>
    intro st hp
    have hfold : ((e :: l).foldl renderKvRow st) = l.foldl renderKvRow (renderKvRow st e) := by
      simp
    have hp2 : (l.foldl renderKvRow (renderKvRow st e)).page = st.page := by
      rw [← hfold]; exact hp
    have hge1 : st.page ≤ (renderKvRow st e).page := renderKvRow_page_ge st e
    have hge2 : (renderKvRow st e).page ≤ (l.foldl renderKvRow (renderKvRow st e)).page :=
      kvFold_page_ge l (renderKvRow st e)
    have hpe : (renderKvRow st e).page = st.page := by omega
    obtain ⟨hy260, hye, hyle⟩ := renderKvRow_nobreak st e hpe
    have hrec := ih (renderKvRow st e) (by omega)
    constructor
    · rw [hfold, hrec.1, hye]
      have hsum : sumKvH (e :: l) = kvRowHeightOf e + sumKvH l := by
        simp [sumKvH]
      omega
    · right
      rcases hrec.2 with hnil | hle
      · subst hnil
        rw [hfold]
        simpa using hyle
      · rw [hfold]
        exact hle

/-! ## Cursor lower-bound lemmas -/

theorem renderKvRow_y_ge30 (st : RState) (e : String × String) (h : 30 ≤ st.y) :
    30 ≤ (renderKvRow st e).y := by
  unfold renderKvRow
  dsimp only
  have h0 : 30 ≤ (breakIfPast 260 st).y := breakIfPast_y_ge30 260 st h
  have h1 := multiCellAdvance_y_ge30 (nLines (toLatin1 e.1))
    ((breakIfPast 260 st).page, (breakIfPast 260 st).y) (by simpa using h0)
  omega

theorem kvFold_y_ge30 (l : List (String × String)) :
    ∀ st : RState, 30 ≤ st.y → 30 ≤ (l.foldl renderKvRow st).y := by
  induction l with
  | nil => intro st h; simpa using h
  | cons e l ih =>
    intro st h
    have := ih (renderKvRow st e) (renderKvRow_y_ge30 st e h)
    simpa using this

theorem renderTableRow_y_ge30 (headers : List String) (st : RState)
    (row : List (String × String)) (hne : headers ≠ []) (h : 30 ≤ st.y) :
    30 ≤ (renderTableRow headers st row).y := by
  unfold renderTableRow
  dsimp only
  apply rowAdvance_y_ge30
  · simp only [rowCells, ne_eq, List.map_eq_nil_iff]
    exact hne
  · intro n hn
    rcases List.mem_map.mp hn with ⟨c, _, rfl⟩
    exact nLines_pos c
  · exact breakIfPast_y_ge30 260 st h

theorem tableFold_y_ge30 (headers : List String) (hne : headers ≠ [])
    (rows : List (List (String × String))) :
    ∀ st : RState, 30 ≤ st.y → 30 ≤ (rows.foldl (renderTableRow headers) st).y := by
  induction rows with
  | nil => intro st h; simpa using h
  | cons r rows ih =>
    intro st h
    have := ih (renderTableRow headers st r) (renderTableRow_y_ge30 headers st r hne h)
    simpa using this

theorem renderContent_y_ge30 (st : RState) (c : Content) (h : 30 ≤ st.y) :
    30 ≤ (renderContent st c).y := by
  cases c with
  | kv entries => exact kvFold_y_ge30 entries st h
  | str s =>
    show 30 ≤ (multiCellAdvance (nLines (toLatin1 s)) (st.page, st.y)).2
    exact multiCellAdvance_y_ge30 (nLines (toLatin1 s)) (st.page, st.y) (by simpa using h)
  | table rows =>
    cases rows with
    | nil =>
      show 30 ≤ st.y + 6
      omega
    | cons r0 rest =>
      by_cases hh : (r0.map Prod.fst).length = 0
      · rw [renderContent]
        rw [if_pos hh]
        exact h
      · rw [renderContent]
        rw [if_neg hh]
        dsimp only
        have hne : r0.map Prod.fst ≠ [] := by
          intro he
          exact hh (by simp [he])
        apply tableFold_y_ge30 (r0.map Prod.fst) hne (r0 :: rest)
        apply rowAdvance_y_ge30
        · intro he
          simp only [List.map_eq_nil_iff] at he
          exact hne (by simp [he])
        · intro n hn
          rcases List.mem_map.mp hn with ⟨c, _, rfl⟩
          exact nLines_pos c
        · exact breakIfPast_y_ge30 260 st h

theorem renderSection_y_ge30 (st : RState) (sec : String × Content) (h : 30 ≤ st.y) :
    30 ≤ (renderSection st sec).y := by
  have h1 : 30 ≤ (emit (breakIfPast 250 st) .sectionHeader [sec.1] 8).y := by
    show 30 ≤ (breakIfPast 250 st).y + 8
    have := breakIfPast_y_ge30 250 st h
    omega
  have h2 := renderContent_y_ge30
    (emit (breakIfPast 250 st) .sectionHeader [sec.1] 8) sec.2 h1
  have h3 : (renderSection st sec).y
      = (renderContent (emit (breakIfPast 250 st) .sectionHeader [sec.1] 8) sec.2).y + 5 :=
    rfl
  omega

theorem sectionsFold_y_ge30 (l : ParsedData) :
    ∀ st : RState, 30 ≤ st.y → 30 ≤ (l.foldl renderSection st).y := by
  induction l with
  | nil => intro st h; simpa using h
  | cons sec l ih =>
    intro st h
    have := ih (renderSection st sec) (renderSection_y_ge30 st sec h)
    simpa using this

/-! ## Encoding lemmas -/

theorem toLatin1_data (s : String) : (toLatin1 s).data = s.data.map latin1Char := rfl

theorem toLatin1_le255 (s : String) : ∀ c ∈ (toLatin1 s).data, c.toNat ≤ 255 := by
  intro c hc
  rw [toLatin1_data] at hc
  rcases List.mem_map.mp hc with ⟨c', _, rfl⟩
  unfold latin1Char
  split
  · assumption
  · decide

/-! ## Extraction segment lemmas -/

theorem petSegment_lookup_ne (d : Html) (k : String) (h : k ≠ "Petitioner and Advocate") :
    (petSegment d).lookup k = none := by
  unfold petSegment
  cases petText d with
  | none => rfl
  | some t => exact lookup_single_ne _ h

theorem resSegment_lookup_ne (d : Html) (k : String) (h : k ≠ "Respondent and Advocate") :
    (resSegment d).lookup k = none := by
  unfold resSegment
  cases resText d with
  | none => rfl
  | some t => exact lookup_single_ne _ h

theorem firSegment_lookup_ne (d : Html) (k : String) (h : k ≠ "FIR Details") :
    (firSegment d).lookup k = none := by
  unfold firSegment
  split
  · rfl
  · exact lookup_single_ne _ h

theorem caseTypeEntries_keys (d : Html) :
    ∀ p ∈ caseTypeEntries d, p.1 = "Case Type" := by
  intro p hp
  unfold caseTypeEntries at hp
  split at hp
  · simp at hp
  · split at hp
    · simp at hp
    · simp at hp
      simp [hp]

theorem filingEntries_keys (d : Html) :
    ∀ p ∈ filingEntries d,
      p.1 = "Filing Number" ∨ p.1 = "Filing Date" ∨ p.1 = "Filing Details" := by
  intro p hp
  unfold filingEntries at hp
  split at hp
  · simp at hp
  · split at hp
    · simp at hp
      rcases hp with hp | hp <;> simp [hp]
    · simp at hp
      simp [hp]

theorem regEntries_keys (d : Html) :
    ∀ p ∈ regEntries d,
      p.1 = "Registration Number" ∨ p.1 = "Registration Date"
        ∨ p.1 = "Registration Details" := by
  intro p hp
  unfold regEntries at hp
  split at hp
  · simp at hp
  · split at hp
    · simp at hp
      rcases hp with hp | hp <;> simp [hp]
    · simp at hp
      simp [hp]

theorem cnrEntries_keys (d : Html) :
    ∀ p ∈ cnrEntries d, p.1 = "CNR Number" := by
  intro p hp
  unfold cnrEntries at hp
  split at hp
  · simp at hp
  · split at hp
    · simp at hp
    · simp at hp
      simp [hp]

/-! ## Resolution loop lemmas -/

theorem resolveFrom_allfail (envs : Nat → AttemptEnv)
    (h : ∀ i, runAttempt (envs i) = false) :
    ∀ (n i : Nat), resolveFrom envs i n = ⟨n, false⟩ := by
  intro n
  induction n with
  | zero => intro i; rfl
  | succ n ih =>
    intro i
    unfold resolveFrom
    rw [h i]
    simp [ih (i + 1)]

theorem resolveFrom_le (f : Nat → AttemptEnv) :
    ∀ (n i : Nat), (resolveFrom f i n).attemptsUsed ≤ n := by
  intro n
  induction n with
  | zero => intro i; simp [resolveFrom]
  | succ n ih =>
    intro i
    unfold resolveFrom
    split
    · simp
    · have := ih (i + 1)
      simp only []
      omega

/-! ## Claims -/

/-- Claim C3 counterexample: a snapshot with an interrupt alert present but with
no rejection phrase, no visible success region and no no-records phrase is
classified `Rejected`, not `Pending` as the claim's third clause states. -/
theorem c3_counterexample :
    hasRejectionPhrase ⟨true, "", false⟩ = false
    ∧ Snapshot.successRegionVisible ⟨true, "", false⟩ = false
    ∧ hasNoRecordsPhrase ⟨true, "", false⟩ = false
    ∧ classify ⟨true, "", false⟩ = Outcome.rejected := by decide

/-- Claim C3 (amended): the classifier checks its rules in priority order with
the first match winning; a snapshot whose visible text contains
"Invalid Captcha" (case-insensitively) is classified `Rejected`; one
containing "Record Not Found" with no alert and no rejection phrase is
classified `Success`; and one with no alert, no rejection phrase, no
visible success region and no no-records phrase is classified `Pending`. -/
theorem c3_amended_classify (s : Snapshot) :
    (containsSub (lowerStr s.bodyText) "invalid captcha" = true →
      classify s = Outcome.rejected)
    ∧ (s.alertPresent = false → hasRejectionPhrase s = false →
      containsSub (lowerStr s.bodyText) "record not found" = true →
      classify s = Outcome.success)
    ∧ (s.alertPresent = false → hasRejectionPhrase s = false →
      s.successRegionVisible = false → hasNoRecordsPhrase s = false →
      classify s = Outcome.pending) := by
  refine ⟨?_, ?_, ?_⟩
  · intro h
    have hrej : hasRejectionPhrase s = true := by
      unfold hasRejectionPhrase rejectionPhrases
      simp only [List.any_cons, List.any_nil, Bool.or_eq_true]
      exact Or.inl h
    unfold classify
    by_cases ha : s.alertPresent
    · simp [ha]
    · simp [ha, hrej]
  · intro ha hrej hnr
    have hnorec : hasNoRecordsPhrase s = true := by
      unfold hasNoRecordsPhrase noRecordsPhrases
      simp only [List.any_cons, List.any_nil, Bool.or_eq_true]
      exact Or.inl hnr
    unfold classify
    by_cases hv : s.successRegionVisible
    · simp [ha, hrej, hv]
    · simp [ha, hrej, hv, hnorec]
  · intro ha hrej hv hnr
    unfold classify
    simp [ha, hrej, hv, hnr]

/-- Claim C3 witness: the amended classifier clauses at three concrete
snapshots. -/
theorem c3_amended_classify_witness :
    classify ⟨false, "Invalid Captcha entered", false⟩ = Outcome.rejected
    ∧ classify ⟨false, "Record Not Found", false⟩ = Outcome.success
    ∧ classify ⟨false, "", false⟩ = Outcome.pending :=
  ⟨(c3_amended_classify _).1 (by decide),
   (c3_amended_classify _).2.1 (by decide) (by decide) (by decide),
   (c3_amended_classify _).2.2 (by decide) (by decide) (by decide) (by decide)⟩

/-- Claim C4: with a recognizer whose text always cleans to the empty string the
loop consumes exactly `max_attempts = 5` attempts and degrades to the
manual-intervention path; in general the attempt count never exceeds the
cap. -/
theorem c4_bounded_attempts (envs : Nat → AttemptEnv) (m : Nat)
    (hempty : ∀ i, cleanOcr (envs i).ocrText = "") :
    resolveCaptcha envs maxAttemptsDefault = ⟨maxAttemptsDefault, false⟩
    ∧ resolutionOutcome (resolveCaptcha envs maxAttemptsDefault)
        = ResolutionResult.requiresManualIntervention
    ∧ ∀ f : Nat → AttemptEnv, (resolveCaptcha f m).attemptsUsed ≤ m := by
  have hrun : ∀ i, runAttempt (envs i) = false := by
    intro i
    unfold runAttempt
    by_cases hl : (envs i).imageLoaded = false
    · simp [hl]
    · simp [hl, hempty i]
  have hmain : resolveCaptcha envs maxAttemptsDefault = ⟨maxAttemptsDefault, false⟩ :=
    resolveFrom_allfail envs hrun maxAttemptsDefault 0
  refine ⟨hmain, ?_, fun f => resolveFrom_le f m 0⟩
  rw [hmain]
  rfl

/-- Claim C4 witness: the loop at the concrete always-unusable environment. -/
theorem c4_bounded_attempts_witness :
    resolveCaptcha (fun _ => emptyOcrEnv) maxAttemptsDefault = ⟨5, false⟩
    ∧ resolutionOutcome (resolveCaptcha (fun _ => emptyOcrEnv) maxAttemptsDefault)
        = ResolutionResult.requiresManualIntervention := by
  have he : ∀ i : Nat, cleanOcr ((fun _ => emptyOcrEnv) i).ocrText = "" := by
    intro i
    show cleanOcr emptyOcrEnv.ocrText = ""
    decide
  exact ⟨(c4_bounded_attempts (fun _ => emptyOcrEnv) 0 he).1,
    (c4_bounded_attempts (fun _ => emptyOcrEnv) 0 he).2.1⟩

/-- Claim C7 is right and the code is wrong.  When the challenge
image loads and the recognition call raises after the screenshot has been
written, control reaches the attempt's exception handler with
`temp_captcha.png` still on disk: the removal runs only on the path where
recognition returns.  When recognition returns, the file is removed before
any later exit of the attempt, and an attempt that skips before capturing
leaves the file system unchanged. -/
theorem c7_file_left_on_ocr_exception :
    (attemptFileState true OcrBehavior.ocrRaises ⟨false⟩).tempCaptcha = true
    ∧ (∀ s, (attemptFileState true (OcrBehavior.ocrReturns s) ⟨false⟩).tempCaptcha = false)
    ∧ (∀ fs, (attemptFileState false OcrBehavior.ocrRaises fs).tempCaptcha = fs.tempCaptcha) :=
  ⟨rfl, fun _ => rfl, fun _ => rfl⟩

/-- Claim C9 counterexample: a request in which all three fields are present but
the challenge-type discriminator is the empty string is rejected with 400
and the core pipeline is not invoked, contradicting the claim's
"when all three are present the core is invoked". -/
theorem c9_counterexample :
    (ScrapeRequest.mk (some "") (some "123") (some "2020")).case_type.isSome = true
    ∧ (ScrapeRequest.mk (some "") (some "123") (some "2020")).case_number.isSome = true
    ∧ (ScrapeRequest.mk (some "") (some "123") (some "2020")).year.isSome = true
    ∧ (handleScrapeRequest ⟨some "", some "123", some "2020"⟩ coreStub).status = 400
    ∧ (handleScrapeRequest ⟨some "", some "123", some "2020"⟩ coreStub).coreInvoked
        = false := by decide

/-- Claim C9 (amended): a request in which any of the three required fields is
missing or empty is rejected with a 400 before the core is invoked; when
all three are present and non-empty the core is invoked, and a full
success yields the attachment `Case_<number>_<year>.pdf` with content type
`application/pdf` and status 200. -/
theorem c9_amended_boundary (req : ScrapeRequest)
    (core : String → String → String → CoreOutcome) (ct cn y tx hx : String) :
    ((req.case_type = none ∨ req.case_number = none ∨ req.year = none
        ∨ req.case_type = some "" ∨ req.case_number = some "" ∨ req.year = some "") →
      (handleScrapeRequest req core).status = 400
      ∧ (handleScrapeRequest req core).coreInvoked = false)
    ∧ (ct ≠ "" → cn ≠ "" → y ≠ "" →
      (handleScrapeRequest ⟨some ct, some cn, some y⟩ core).coreInvoked = true
      ∧ (core ct cn y = CoreOutcome.scraped tx hx →
        handleScrapeRequest ⟨some ct, some cn, some y⟩ core
          = ⟨200, true, some ("Case_" ++ cn ++ "_" ++ y ++ ".pdf"),
             some "application/pdf"⟩)) := by
  constructor
  · intro hmiss
    obtain ⟨a, b, c⟩ := req
    cases a with
    | none => exact ⟨rfl, rfl⟩
    | some sa =>
      cases b with
      | none => exact ⟨rfl, rfl⟩
      | some sb =>
        cases c with
        | none => exact ⟨rfl, rfl⟩
        | some sc =>
          have hemp : sa = "" ∨ sb = "" ∨ sc = "" := by
            rcases hmiss with h | h | h | h | h | h
            · exact absurd h (by simp)
            · exact absurd h (by simp)
            · exact absurd h (by simp)
            · exact Or.inl (by simpa using h)
            · exact Or.inr (Or.inl (by simpa using h))
            · exact Or.inr (Or.inr (by simpa using h))
          simp only [handleScrapeRequest]
          rw [if_pos hemp]
          exact ⟨rfl, rfl⟩
  · intro hct hcn hy
    have hcond : ¬(ct = "" ∨ cn = "" ∨ y = "") := by
      push_neg
      exact ⟨hct, hcn, hy⟩
    constructor
    · simp only [handleScrapeRequest]
      rw [if_neg hcond]
      cases core ct cn y <;> rfl
    · intro hscr
      simp only [handleScrapeRequest]
      rw [if_neg hcond, hscr]

/-- Claim C9 witness: the amended boundary behaviour at concrete requests. -/
theorem c9_amended_boundary_witness :
    ((handleScrapeRequest ⟨none, some "77", some "2021"⟩ coreStub).status = 400
      ∧ (handleScrapeRequest ⟨none, some "77", some "2021"⟩ coreStub).coreInvoked = false)
    ∧ handleScrapeRequest ⟨some "CrA", some "77", some "2021"⟩ coreStub
        = ⟨200, true, some ("Case_" ++ "77" ++ "_" ++ "2021" ++ ".pdf"),
           some "application/pdf"⟩ := by
  refine ⟨(c9_amended_boundary ⟨none, some "77", some "2021"⟩ coreStub
    "CrA" "77" "2021" "text" "markup").1 (Or.inl rfl), ?_⟩
  exact ((c9_amended_boundary ⟨some "CrA", some "77", some "2021"⟩ coreStub
    "CrA" "77" "2021" "text" "markup").2 (by decide) (by decide) (by decide)).2 rfl

/-- Claim C2 counterexample: a table whose header repeats a cell text.  The one
well-sized row collapses to a single-key dict (`dict(zip(...))` keeps the
last value for a duplicated key), so the extracted row does not carry
exactly the header's keys in the header's order, and the duplicated column
is effectively truncated. -/
theorem c2_counterexample :
    actsHeaders dupHeaderDoc = ["A", "A"]
    ∧ actsData dupHeaderDoc = [[("A", "2")]]
    ∧ ¬(∀ r ∈ actsData dupHeaderDoc, r.map Prod.fst = actsHeaders dupHeaderDoc) := by
  decide

/-- Claim C2 (amended): when the declared header names are pairwise distinct,
every extracted row is exactly the header zipped with the row's cells — so
it has exactly the header's keys in the header's order — and a row is kept
exactly when its column count equals the header count (mismatched rows are
dropped, neither padded nor truncated); with duplicated header names the
zipped dict deduplicates keys, keeping the last duplicated column's value. -/
theorem c2_amended_table_rows (headers : List String) (rowsCols : List (List String))
    (hnd : headers.Nodup) :
    tableRows headers rowsCols
      = (rowsCols.filter (fun cols => cols.length = headers.length)).map
          (fun cols => headers.zip cols)
    ∧ ∀ r ∈ tableRows headers rowsCols, r.map Prod.fst = headers := by
  have key : ∀ cols : List String, cols.length = headers.length →
      pyDictOfPairs (headers.zip cols) = headers.zip cols := by
    intro cols hlen
    apply pyDictOfPairs_of_nodup
    rw [List.map_fst_zip headers cols (by omega)]
    exact hnd
  constructor
  · unfold tableRows
    rw [filterMap_if (fun cols => cols.length = headers.length)
      (fun cols => pyDictOfPairs (headers.zip cols)) rowsCols]
    apply List.map_congr_left
    intro cols hcols
    have hlen : cols.length = headers.length := by
      have := List.mem_filter.mp hcols
      simpa using this.2
    exact key cols hlen
  · intro r hr
    unfold tableRows at hr
    rcases List.mem_filterMap.mp hr with ⟨cols, hmem, hfc⟩
    by_cases hlen : cols.length = headers.length
    · rw [if_pos hlen] at hfc
      have hre : r = pyDictOfPairs (headers.zip cols) := (Option.some.inj hfc).symm
      rw [hre, key cols hlen]
      exact List.map_fst_zip headers cols (by omega)
    · rw [if_neg hlen] at hfc
      cases hfc

/-- Claim C2 witness: the claim's concrete instance — header `[A, B]` with rows
`[[1, 2], [3]]` yields exactly the one row `{A: 1, B: 2}`. -/
theorem c2_amended_table_rows_witness :
    tableRows ["A", "B"] [["1", "2"], ["3"]] = [[("A", "1"), ("B", "2")]]
    ∧ ∀ r ∈ tableRows ["A", "B"] [["1", "2"], ["3"]], r.map Prod.fst = ["A", "B"] :=
  ⟨by decide, (c2_amended_table_rows ["A", "B"] [["1", "2"], ["3"]] (by decide)).2⟩

theorem tableFold_blocks_mono (headers : List String)
    (rows : List (List (String × String))) :
    ∀ (st : RState) (b : Block), b ∈ st.blocks →
      b ∈ (rows.foldl (renderTableRow headers) st).blocks := by
  induction rows with
  | nil => intro st b hb; simpa using hb
  | cons r rows ih =>
    intro st b hb
    have hb' : b ∈ (renderTableRow headers st r).blocks := by
      rw [renderTableRow_blocks]
      exact List.mem_append.mpr (Or.inl hb)
    simpa using ih (renderTableRow headers st r) b hb'

theorem tableFold_row_block (headers : List String) :
    ∀ (rows : List (List (String × String))) (st : RState)
      (row : List (String × String)), row ∈ rows →
      ∃ b ∈ (rows.foldl (renderTableRow headers) st).blocks,
        b.kind = BlockKind.tableDataRow ∧ b.cellTexts = rowCells headers row := by
  intro rows
  induction rows with
  | nil => intro st row hrow; simp at hrow
  | cons r rows ih =>
    intro st row hrow
    rcases List.mem_cons.mp hrow with hr | hr
    · subst hr
      refine ⟨⟨BlockKind.tableDataRow, rowCells headers row,
        (rowAdvance ((rowCells headers row).map nLines)
          (breakIfPast 260 st).page (breakIfPast 260 st).y).1,
        (breakIfPast 260 st).y,
        (rowAdvance ((rowCells headers row).map nLines)
          (breakIfPast 260 st).page (breakIfPast 260 st).y).2⟩, ?_, rfl, rfl⟩
      have hmem : (⟨BlockKind.tableDataRow, rowCells headers row,
          (rowAdvance ((rowCells headers row).map nLines)
            (breakIfPast 260 st).page (breakIfPast 260 st).y).1,
          (breakIfPast 260 st).y,
          (rowAdvance ((rowCells headers row).map nLines)
            (breakIfPast 260 st).page (breakIfPast 260 st).y).2⟩ : Block)
          ∈ (renderTableRow headers st row).blocks := by
        rw [renderTableRow_blocks]
        exact List.mem_append.mpr (Or.inr (by simp))
      simpa using tableFold_blocks_mono headers rows (renderTableRow headers st row) _ hmem
    · have := ih (renderTableRow headers st r) row hr
      simpa using this

/-- Claim C10: when rendering a table, the header row texts are exactly the keys
of the table's first entry; every entry is rendered as a data row whose
cells are the first entry's keys looked up in that entry with the empty
string as default (a missing key yields an empty cell, an entry with none
of the keys yields all-empty cells); and keys of an entry that are not
among the first entry's keys do not affect its rendered cells. -/
theorem c10_table_render (st : RState) (r0 row : List (String × String))
    (rest : List (List (String × String))) (k v : String)
    (hmem : row ∈ r0 :: rest) (hk : k ∉ r0.map Prod.fst) (hr0 : r0 ≠ []) :
    (∃ b ∈ (renderContent st (Content.table (r0 :: rest))).blocks,
      b.kind = BlockKind.tableHeaderRow
      ∧ b.cellTexts = (r0.map Prod.fst).map toLatin1)
    ∧ (∃ b ∈ (renderContent st (Content.table (r0 :: rest))).blocks,
      b.kind = BlockKind.tableDataRow
      ∧ b.cellTexts = rowCells (r0.map Prod.fst) row)
    ∧ rowCells (r0.map Prod.fst) ((k, v) :: row) = rowCells (r0.map Prod.fst) row
    ∧ rowCells (r0.map Prod.fst) [] = (r0.map Prod.fst).map (fun _ => "") := by
  have hlen : ¬((r0.map Prod.fst).length = 0) := by
    simpa using fun h => hr0 (List.eq_nil_of_length_eq_zero h)
  refine ⟨?_, ?_, ?_, ?_⟩
  · rw [renderContent]
    rw [if_neg hlen]
    dsimp only
    refine ⟨⟨BlockKind.tableHeaderRow, (r0.map Prod.fst).map toLatin1,
      (rowAdvance (((r0.map Prod.fst).map toLatin1).map nLines)
        (breakIfPast 260 st).page (breakIfPast 260 st).y).1,
      (breakIfPast 260 st).y,
      (rowAdvance (((r0.map Prod.fst).map toLatin1).map nLines)
        (breakIfPast 260 st).page (breakIfPast 260 st).y).2⟩,
      ?_, rfl, rfl⟩
    apply tableFold_blocks_mono
    dsimp only
    rw [breakIfPast_blocks]
    exact List.mem_append.mpr (Or.inr (by simp))
  · rw [renderContent]
    rw [if_neg hlen]
    dsimp only
    exact tableFold_row_block (r0.map Prod.fst) (r0 :: rest) _ row hmem
  · unfold rowCells
    apply List.map_congr_left
    intro h hh
    have hne : h ≠ k := fun e => hk (e ▸ hh)
    simp [List.lookup, beq_eq_false_iff_ne.mpr hne]
  · unfold rowCells
    apply List.map_congr_left
    intro h _
    simp [List.lookup]
    rfl

/-- Claim C10 witness: the table whose first entry declares keys `A`, `B`, with
a second entry lacking `B` and carrying an extra key `C`. -/
theorem c10_table_render_witness :
    (∃ b ∈ (renderContent initState (Content.table [tableEntryOne, tableEntryTwo])).blocks,
      b.kind = BlockKind.tableHeaderRow
      ∧ b.cellTexts = (tableEntryOne.map Prod.fst).map toLatin1)
    ∧ (∃ b ∈ (renderContent initState (Content.table [tableEntryOne, tableEntryTwo])).blocks,
      b.kind = BlockKind.tableDataRow
      ∧ b.cellTexts = rowCells (tableEntryOne.map Prod.fst) tableEntryTwo)
    ∧ rowCells (tableEntryOne.map Prod.fst) (("C", "9") :: tableEntryTwo)
        = rowCells (tableEntryOne.map Prod.fst) tableEntryTwo
    ∧ rowCells (tableEntryOne.map Prod.fst) []
        = (tableEntryOne.map Prod.fst).map (fun _ => "") :=
  c10_table_render initState tableEntryOne tableEntryTwo [tableEntryTwo] "C" "9"
    (by decide) (by decide) (by decide)

/-- Claim C8: rendering is total over the record's content kinds and degrades
instead of failing: every text written into a non-header block (keys,
values, cells, text content — the source encodes exactly these) consists
only of characters representable in the output encoding, the substitution
is character-by-character (`latin1Char` keeps representable characters and
replaces every other one), and an empty table renders the single
"No records found." placeholder row in place of a header row. -/
theorem c8_encoding_and_placeholder (d : ParsedData) (b : Block)
    (hb : b ∈ (renderReport d).blocks) (hk : b.kind ≠ BlockKind.sectionHeader)
    (t : String) (ht : t ∈ b.cellTexts) (s : String) (st : RState) :
    (∀ c ∈ t.data, c.toNat ≤ 255)
    ∧ (toLatin1 s).data = s.data.map latin1Char
    ∧ (renderContent st (Content.table [])).blocks
        = st.blocks
          ++ [⟨BlockKind.noRecordsRow, ["No records found."], st.page, st.y, st.y + 6⟩] := by
  refine ⟨?_, toLatin1_data s, rfl⟩
  have hP := renderReport_inv
    (fun b => b.kind ≠ BlockKind.sectionHeader →
      ∀ t ∈ b.cellTexts, ∀ c ∈ t.data, c.toNat ≤ 255)
    ?_ ?_ ?_ ?_ ?_ ?_ d b hb
  · exact hP hk t ht
  · intro pg y s' _ hkind
    simp at hkind
  · intro pg y0 y1 k' v' _ _ _ t' ht' c hc
    rcases List.mem_cons.mp ht' with he | ht'
    · exact toLatin1_le255 k' c (he ▸ hc)
    · have he : t' = toLatin1 v' := by simpa using ht'
      exact toLatin1_le255 v' c (he ▸ hc)
  · intro pg y0 y1 headers _ _ _ t' ht' c hc
    rcases List.mem_map.mp ht' with ⟨x, _, rfl⟩
    exact toLatin1_le255 x c hc
  · intro pg y0 y1 headers row _ _ _ t' ht' c hc
    rcases List.mem_map.mp ht' with ⟨x, _, rfl⟩
    exact toLatin1_le255 _ c hc
  · intro pg y _ _ t' ht' c hc
    have he : t' = "No records found." := by simpa using ht'
    subst he
    revert c hc
    decide
  · intro pg y0 y1 s' _ _ _ t' ht' c hc
    have he : t' = toLatin1 s' := by simpa using ht'
    exact toLatin1_le255 s' c (he ▸ hc)

/-- Claim C8 witness: the rupee sign is replaced by the substitution marker in
the rendered text block of the concrete record. -/
theorem c8_encoding_and_placeholder_witness :
    (∀ c ∈ ("Amount ?500" : String).data, c.toNat ≤ 255)
    ∧ (toLatin1 "Amount ₹500").data = ("Amount ₹500" : String).data.map latin1Char
    ∧ (renderContent initState (Content.table [])).blocks
        = initState.blocks
          ++ [⟨BlockKind.noRecordsRow, ["No records found."], initState.page,
               initState.y, initState.y + 6⟩] :=
  c8_encoding_and_placeholder rupeeRecord
    ⟨BlockKind.textBlock, ["Amount ?500"], 1, 38, 44⟩
    (by decide) (by decide) "Amount ?500" (by decide) "Amount ₹500" initState

/-- Claim C5: layout management.  Every rendered block respects the page
bounds: it starts at or above the near-bottom threshold (`y0 ≤ 260`,
enforced by the explicit `get_y` checks before every section header and
row, and by headers being freshly placed before the blocks without an own
check), and it ends at or above the printable bottom (`y1 ≤ 277`, enforced
by the library's automatic page break on every written line).  And content
overflowing a page continues on a further page: a record containing a
mapping section whose header and rows together are taller than the
one-page capacity (8mm header plus row heights above 247mm, the printable
span below the 30mm top-of-page cursor) yields a document of at least two
pages. -/
theorem c5_layout_pagination (d d1 d2 : ParsedData) (s : String)
    (entries : List (String × String)) :
    (∀ b ∈ (renderReport d).blocks, b.y0 ≤ 260 ∧ b.y1 ≤ printableBottom)
    ∧ (d = d1 ++ (s, Content.kv entries) :: d2 → 247 < 8 + sumKvH entries →
        2 ≤ (renderReport d).page) := by
  constructor
  · refine renderReport_inv
      (fun b => b.y0 ≤ 260 ∧ b.y1 ≤ printableBottom) ?_ ?_ ?_ ?_ ?_ ?_ d
    · intro pg y s' hy
      dsimp only
      refine ⟨by omega, ?_⟩
      simp only [printableBottom]
      omega
    · intro pg y0 y1 k' v' h0 h1
      exact ⟨h0, h1⟩
    · intro pg y0 y1 headers h0 h1
      exact ⟨h0, h1⟩
    · intro pg y0 y1 headers row h0 h1
      exact ⟨h0, h1⟩
    · intro pg y hy
      dsimp only
      refine ⟨by omega, ?_⟩
      simp only [printableBottom]
      omega
    · intro pg y0 y1 s' h0 h1
      exact ⟨h0, h1⟩
  · intro hd hsum
    subst hd
    by_contra hlt
    push_neg at hlt
    have hsplit : renderReport (d1 ++ (s, Content.kv entries) :: d2)
        = d2.foldl renderSection
            (renderSection (d1.foldl renderSection initState) (s, Content.kv entries)) := by
      simp [renderReport, List.foldl_append]
    rw [hsplit] at hlt
    have hmono1 : 1 ≤ (d1.foldl renderSection initState).page := by
      have := sectionsFold_page_ge d1 initState
      simpa [initState] using this
    have hmono2 : (d1.foldl renderSection initState).page
        ≤ (renderSection (d1.foldl renderSection initState) (s, Content.kv entries)).page :=
      renderSection_page_ge (d1.foldl renderSection initState) (s, Content.kv entries)
    have hmono3 : (renderSection (d1.foldl renderSection initState)
          (s, Content.kv entries)).page
        ≤ (d2.foldl renderSection
            (renderSection (d1.foldl renderSection initState)
              (s, Content.kv entries))).page :=
      sectionsFold_page_ge d2 _
    have hSpage : (renderSection (d1.foldl renderSection initState)
        (s, Content.kv entries)).page = 1 := by omega
    have hF1page : (d1.foldl renderSection initState).page = 1 := by omega
    have hSdef : (renderSection (d1.foldl renderSection initState)
          (s, Content.kv entries)).page
        = (renderContent (emit (breakIfPast 250 (d1.foldl renderSection initState))
            BlockKind.sectionHeader [s] 8) (Content.kv entries)).page := rfl
    have hcge : (breakIfPast 250 (d1.foldl renderSection initState)).page
        ≤ (renderSection (d1.foldl renderSection initState)
            (s, Content.kv entries)).page := by
      have h1 : (emit (breakIfPast 250 (d1.foldl renderSection initState))
          BlockKind.sectionHeader [s] 8).page
          = (breakIfPast 250 (d1.foldl renderSection initState)).page := rfl
      have h2 := renderContent_page_ge
        (emit (breakIfPast 250 (d1.foldl renderSection initState))
          BlockKind.sectionHeader [s] 8) (Content.kv entries)
      rw [hSdef]
      omega
    have hbnf : breakIfPast 250 (d1.foldl renderSection initState)
        = d1.foldl renderSection initState := by
      by_cases hc : 250 < (d1.foldl renderSection initState).y
      · exfalso
        have hb1 : (breakIfPast 250 (d1.foldl renderSection initState)).page
            = (d1.foldl renderSection initState).page + 1 := by
          unfold breakIfPast
          rw [if_pos hc]
        omega
      · exact breakIfPast_of_le 250 (d1.foldl renderSection initState)
          (Nat.le_of_not_lt hc)
    have hfoldpage : (entries.foldl renderKvRow
        (emit (d1.foldl renderSection initState) BlockKind.sectionHeader [s] 8)).page
        = (emit (d1.foldl renderSection initState) BlockKind.sectionHeader [s] 8).page := by
      have e1 : (renderSection (d1.foldl renderSection initState)
            (s, Content.kv entries)).page
          = (entries.foldl renderKvRow
              (emit (d1.foldl renderSection initState)
                BlockKind.sectionHeader [s] 8)).page := by
        rw [hSdef, hbnf]
        rfl
      have e2 : (emit (d1.foldl renderSection initState)
          BlockKind.sectionHeader [s] 8).page
          = (d1.foldl renderSection initState).page := rfl
      omega
    obtain ⟨hky, hkle⟩ := kvFold_nobreak entries
      (emit (d1.foldl renderSection initState) BlockKind.sectionHeader [s] 8) hfoldpage
    have hne : entries ≠ [] := by
      intro he
      subst he
      simp [sumKvH] at hsum
    rcases hkle with he | hle
    · exact hne he
    · have hF1y : 30 ≤ (d1.foldl renderSection initState).y := by
        have := sectionsFold_y_ge30 d1 initState (by norm_num [initState])
        simpa using this
      have hstBy : (emit (d1.foldl renderSection initState)
          BlockKind.sectionHeader [s] 8).y
          = (d1.foldl renderSection initState).y + 8 := rfl
      simp only [printableBottom] at hle
      omega

/-- Claim C5 witness: a mapping section holding one forty-line value (a
240mm row below the 8mm header exceeds the 247mm one-page capacity)
produces at least two pages. -/
theorem c5_layout_pagination_witness :
    2 ≤ (renderReport oversizedRecord).page :=
  (c5_layout_pagination oversizedRecord [] [] "Case Status"
    [("History", tallValue)]).2 rfl (by decide)

theorem not_key_in_caseDetails (doc : Html) (key : String)
    (hct : key ≠ "Case Type")
    (hf : ∀ p ∈ filingEntries doc, p.1 ≠ key)
    (hr : ∀ p ∈ regEntries doc, p.1 ≠ key)
    (hcnr : key ≠ "CNR Number") :
    key ∉ (caseDetails doc).map Prod.fst := by
  intro hmem
  rw [caseDetails] at hmem
  simp only [List.map_append, List.mem_append] at hmem
  rcases hmem with ((h | h) | h) | h
  · rcases List.mem_map.mp h with ⟨p, hp, he⟩
    exact hct (he.symm.trans (caseTypeEntries_keys doc p hp))
  · rcases List.mem_map.mp h with ⟨p, hp, he⟩
    exact hf p hp he
  · rcases List.mem_map.mp h with ⟨p, hp, he⟩
    exact hr p hp he
  · rcases List.mem_map.mp h with ⟨p, hp, he⟩
    exact hcnr (he.symm.trans (cnrEntries_keys doc p hp))

/-- Claim C6: when the Filing (resp. Registration) label is present, extraction
first attempts the paired number/date pattern: on a match the Case Details
mapping carries the two separate entries and no fallback key, and only
when the paired pattern fails is the container's whole flattened text
stored under the single fallback key, with no number/date entries. -/
theorem c6_paired_labels (doc : Html) (t u a b a2 b2 : String)
    (ht : filingRowText doc = some t) :
    (filingPaired t = some (a, b) →
      ("Filing Number", a) ∈ caseDetails doc
      ∧ ("Filing Date", b) ∈ caseDetails doc
      ∧ "Filing Details" ∉ (caseDetails doc).map Prod.fst)
    ∧ (filingPaired t = none →
      ("Filing Details", t) ∈ caseDetails doc
      ∧ "Filing Number" ∉ (caseDetails doc).map Prod.fst
      ∧ "Filing Date" ∉ (caseDetails doc).map Prod.fst)
    ∧ (regRowText doc = some u →
      (regPaired u = some (a2, b2) →
        ("Registration Number", a2) ∈ caseDetails doc
        ∧ ("Registration Date", b2) ∈ caseDetails doc
        ∧ "Registration Details" ∉ (caseDetails doc).map Prod.fst)
      ∧ (regPaired u = none →
        ("Registration Details", u) ∈ caseDetails doc
        ∧ "Registration Number" ∉ (caseDetails doc).map Prod.fst)) := by
  refine ⟨?_, ?_, ?_⟩
  · intro hm
    have hfe : filingEntries doc = [("Filing Number", a), ("Filing Date", b)] := by
      simp [filingEntries, ht, hm]
    refine ⟨?_, ?_, ?_⟩
    · simp [caseDetails, hfe]
    · simp [caseDetails, hfe]
    · refine not_key_in_caseDetails doc "Filing Details" (by decide) ?_ ?_ (by decide)
      · intro p hp
        rw [hfe] at hp
        rcases List.mem_cons.mp hp with he | hp
      <;> simp_all
      · intro p hp
        rcases regEntries_keys doc p hp with h | h | h <;> simp [h]
  · intro hm
    have hfe : filingEntries doc = [("Filing Details", t)] := by
      simp [filingEntries, ht, hm]
    refine ⟨by simp [caseDetails, hfe], ?_, ?_⟩
    · refine not_key_in_caseDetails doc "Filing Number" (by decide) ?_ ?_ (by decide)
      · intro p hp
        rw [hfe] at hp
        simp_all
      · intro p hp
        rcases regEntries_keys doc p hp with h | h | h <;> simp [h]
    · refine not_key_in_caseDetails doc "Filing Date" (by decide) ?_ ?_ (by decide)
      · intro p hp
        rw [hfe] at hp
        simp_all
      · intro p hp
        rcases regEntries_keys doc p hp with h | h | h <;> simp [h]
  · intro hu
    constructor
    · intro hm
      have hre : regEntries doc = [("Registration Number", a2), ("Registration Date", b2)] := by
        simp [regEntries, hu, hm]
      refine ⟨by simp [caseDetails, hre], by simp [caseDetails, hre], ?_⟩
      refine not_key_in_caseDetails doc "Registration Details" (by decide) ?_ ?_ (by decide)
      · intro p hp
        rcases filingEntries_keys doc p hp with h | h | h <;> simp [h]
      · intro p hp
        rw [hre] at hp
        rcases List.mem_cons.mp hp with he | hp <;> simp_all
    · intro hm
      have hre : regEntries doc = [("Registration Details", u)] := by
        simp [regEntries, hu, hm]
      refine ⟨by simp [caseDetails, hre], ?_⟩
      refine not_key_in_caseDetails doc "Registration Number" (by decide) ?_ ?_ (by decide)
      · intro p hp
        rcases filingEntries_keys doc p hp with h | h | h <;> simp [h]
      · intro p hp
        rw [hre] at hp
        simp_all

/-- Claim C6 witness: the concrete two-row document — the Filing row matches the
paired pattern and produces the two entries without the fallback key; the
Registration row (no colon) fails the paired pattern and falls back to the
single whole-text key. -/
theorem c6_paired_labels_witness :
    ("Filing Number", "123/2020") ∈ caseDetails filingDoc
    ∧ ("Filing Date", "01-01-2020") ∈ caseDetails filingDoc
    ∧ "Filing Details" ∉ (caseDetails filingDoc).map Prod.fst
    ∧ ("Registration Details", "Registration Number 55/2021") ∈ caseDetails filingDoc
    ∧ "Registration Number" ∉ (caseDetails filingDoc).map Prod.fst := by
  have h := c6_paired_labels filingDoc
    "Filing Number : 123/2020  Filing Date : 01-01-2020"
    "Registration Number 55/2021" "123/2020" "01-01-2020" "x" "y" (by decide)
  have h1 := h.1 (by decide)
  have h3 := (h.2.2 (by decide)).2 (by decide)
  exact ⟨h1.1, h1.2.1, h1.2.2, h3.1, h3.2⟩

/-- Claim C1 counterexample: on a well-formed document with no anchors at all,
the extractor omits the `Petitioner and Advocate`, `Respondent and
Advocate` and `FIR Details` sections entirely instead of binding them to
empty values — the result holds only the seven unconditional sections. -/
theorem c1_counterexample :
    (parseHtmlData emptyDoc).lookup "Petitioner and Advocate" = none
    ∧ (parseHtmlData emptyDoc).lookup "Respondent and Advocate" = none
    ∧ (parseHtmlData emptyDoc).lookup "FIR Details" = none
    ∧ (parseHtmlData emptyDoc).map Prod.fst
        = ["Case Details", "Case Status", "Acts", "Subordinate Court Information",
           "IA Details", "Orders", "Category Details"] := by decide

/-- Claim C1 (amended): extraction never fails and always returns the seven
sections Case Details, Case Status, Acts, Subordinate Court Information,
IA Details, Orders and Category Details, each bound to an empty mapping or
table when its anchor is absent; but the Petitioner and Advocate,
Respondent and Advocate and FIR Details sections are omitted from the
result (not bound to empty values) whenever their anchors are absent. -/
theorem c1_amended_sections (d : Html) :
    (parseHtmlData d).lookup "Case Details" = some (Content.kv (caseDetails d))
    ∧ (parseHtmlData d).lookup "Case Status" = some (Content.kv (caseStatus d))
    ∧ (parseHtmlData d).lookup "Acts" = some (Content.table (actsData d))
    ∧ (parseHtmlData d).lookup "Subordinate Court Information"
        = some (Content.kv (subCourtData d))
    ∧ (parseHtmlData d).lookup "IA Details" = some (Content.table (iaData d))
    ∧ (parseHtmlData d).lookup "Orders" = some (Content.table (ordersData d))
    ∧ (parseHtmlData d).lookup "Category Details" = some (Content.kv (catData d))
    ∧ (petText d = none → (parseHtmlData d).lookup "Petitioner and Advocate" = none)
    ∧ (resText d = none → (parseHtmlData d).lookup "Respondent and Advocate" = none)
    ∧ (firData d = [] → (parseHtmlData d).lookup "FIR Details" = none)
    ∧ (tableWithClass "Acts_table" d = none → actsData d = [])
    ∧ (tableWithClass "IAheading" d = none → iaData d = [])
    ∧ (tableWithClass "order_table" d = none → ordersData d = [])
    ∧ (statusDivOf d = none → caseStatus d = [])
    ∧ (lowerCourtSpanOf d = none → subCourtData d = [])
    ∧ (findTop isCatHeader d = none → catData d = []) := by
  refine ⟨?_, ?_, ?_, ?_, ?_, ?_, ?_, ?_, ?_, ?_, ?_, ?_, ?_, ?_, ?_, ?_⟩
  · rfl
  · rfl
  · simp [parseHtmlData, lookup_append, List.lookup,
      petSegment_lookup_ne d "Acts" (by decide),
      resSegment_lookup_ne d "Acts" (by decide)]
  · simp [parseHtmlData, lookup_append, List.lookup,
      petSegment_lookup_ne d "Subordinate Court Information" (by decide),
      resSegment_lookup_ne d "Subordinate Court Information" (by decide)]
  · simp [parseHtmlData, lookup_append, List.lookup,
      petSegment_lookup_ne d "IA Details" (by decide),
      resSegment_lookup_ne d "IA Details" (by decide),
      firSegment_lookup_ne d "IA Details" (by decide)]
  · simp [parseHtmlData, lookup_append, List.lookup,
      petSegment_lookup_ne d "Orders" (by decide),
      resSegment_lookup_ne d "Orders" (by decide),
      firSegment_lookup_ne d "Orders" (by decide)]
  · simp [parseHtmlData, lookup_append, List.lookup,
      petSegment_lookup_ne d "Category Details" (by decide),
      resSegment_lookup_ne d "Category Details" (by decide),
      firSegment_lookup_ne d "Category Details" (by decide)]
  · intro h
    have hps : petSegment d = [] := by simp [petSegment, h]
    simp [parseHtmlData, lookup_append, List.lookup, hps,
      resSegment_lookup_ne d "Petitioner and Advocate" (by decide),
      firSegment_lookup_ne d "Petitioner and Advocate" (by decide)]
  · intro h
    have hrs : resSegment d = [] := by simp [resSegment, h]
    simp [parseHtmlData, lookup_append, List.lookup, hrs,
      petSegment_lookup_ne d "Respondent and Advocate" (by decide),
      firSegment_lookup_ne d "Respondent and Advocate" (by decide)]
  · intro h
    have hfs : firSegment d = [] := by simp [firSegment, h]
    simp [parseHtmlData, lookup_append, List.lookup, hfs,
      petSegment_lookup_ne d "FIR Details" (by decide),
      resSegment_lookup_ne d "FIR Details" (by decide)]
  · intro h
    simp [actsData, h]
  · intro h
    simp [iaData, h]
  · intro h
    simp [ordersData, h]
  · intro h
    simp [caseStatus, h]
  · intro h
    simp [subCourtData, h]
  · intro h
    simp [catData, h]

/-- Claim C1 witness: the amended behaviour at the anchor-free document. -/
theorem c1_amended_sections_witness :
    (parseHtmlData emptyDoc).lookup "Case Details" = some (Content.kv [])
    ∧ (parseHtmlData emptyDoc).lookup "Acts" = some (Content.table [])
    ∧ (parseHtmlData emptyDoc).lookup "Respondent and Advocate" = none := by
  obtain ⟨h1, _, h3, _, _, _, _, _, h9, _⟩ := c1_amended_sections emptyDoc
  refine ⟨?_, ?_, h9 (by decide)⟩
  · rw [h1]
    decide
  · rw [h3]
    decide

end MPHC
